import Mathlib

/-!
Verification development for the garmin-connect-activity-exporter core.

The Python sources under `source/` are shallowly embedded here:
Python `str` values are modelled as `List Char` (`Str`), machine
integers as `Int`/`Nat`, file-system state as an association list from
path strings to file contents, and fallible code as `Except String`.
Definitions follow the Python source function by function; definitions
whose doc comment says "from the spec" follow the specification text
instead and exist only to be compared against the source embedding.

Modelling scope notes:
- Python's Unicode-aware `str.isalnum` is modelled by ASCII
  alphanumerics (`Char.isAlphanum`); all concrete inputs in this file
  are ASCII.
- File contents are modelled as text (`Str`); the source reads and
  writes bytes, and every write the program performs is UTF-8 text, so
  byte equality coincides with string equality on the modelled states.
- `int(...)` parsing is modelled for an optional sign followed by ASCII
  digits, which covers every string the program itself produces.
-/

/-- Python strings are modelled as lists of characters. -/
abbrev Str := List Char

instance {ε α : Type} [DecidableEq ε] [DecidableEq α] : DecidableEq (Except ε α)
  | .ok a, .ok b =>
    if h : a = b then .isTrue (by rw [h])
    else .isFalse (by intro hh; injection hh; contradiction)
  | .error a, .error b =>
    if h : a = b then .isTrue (by rw [h])
    else .isFalse (by intro hh; injection hh; contradiction)
  | .ok _, .error _ => .isFalse (by intro h; cases h)
  | .error _, .ok _ => .isFalse (by intro h; cases h)

/-- Decimal digit character for a value below ten (used by `natRepr`). -/
def digitChar : Nat → Char
  | 0 => '0' | 1 => '1' | 2 => '2' | 3 => '3' | 4 => '4'
  | 5 => '5' | 6 => '6' | 7 => '7' | 8 => '8' | _ => '9'

/-- Fuel-driven decimal printer; the fuel is always sufficient when
called through `natRepr`. -/
def natReprAux : Nat → Nat → Str
  | 0, _ => []
  | fuel + 1, n =>
    if n < 10 then [digitChar n]
    else natReprAux fuel (n / 10) ++ [digitChar (n % 10)]

/-- Decimal representation of a natural number, as Python `str(n)`. -/
def natRepr (n : Nat) : Str := natReprAux (n + 1) n

/-- Decimal representation of an integer, as Python `str(i)`. -/
def intRepr (i : Int) : Str :=
  if i < 0 then '-' :: natRepr i.natAbs else natRepr i.natAbs

/-- ASCII decimal digit test. -/
def isDigitCh (c : Char) : Bool := 48 ≤ c.toNat ∧ c.toNat ≤ 57

/-- Numeric value of an ASCII digit character. -/
def digitVal (c : Char) : Nat := c.toNat - 48

/-- Parse a nonempty all-digit string into a natural number. -/
def parseNatDigits (s : Str) : Option Nat :=
  if s ≠ [] ∧ s.all isDigitCh then
    some (s.foldl (fun a c => a * 10 + digitVal c) 0)
  else none

/-- Python `int(s)` on an optional sign followed by ASCII digits. -/
def parsePyInt (s : Str) : Option Int :=
  match s with
  | [] => none
  | c :: rest =>
    if c = '-' then
      match parseNatDigits rest with
      | none => none
      | some n => some (-(n : Int))
    else if c = '+' then
      match parseNatDigits rest with
      | none => none
      | some n => some ((n : Int))
    else
      match parseNatDigits (c :: rest) with
      | none => none
      | some n => some ((n : Int))

/-- Split a string on every occurrence of the separator character,
as Python `s.split(sep)` for a single-character separator. -/
def splitOnCh (sep : Char) : Str → List Str
  | [] => [[]]
  | c :: rest =>
    let r := splitOnCh sep rest
    if c = sep then [] :: r
    else
      match r with
      | [] => [[c]]
      | hd :: tl => (c :: hd) :: tl

/-- Join a list of strings with a separator string. -/
def sepJoin (sep : Str) : List Str → Str
  | [] => []
  | [x] => x
  | x :: rest => x ++ sep ++ sepJoin sep rest

/-- Zero-pad a decimal representation on the left to the given width. -/
def padZero (width : Nat) (n : Nat) : Str :=
  let s := natRepr n
  List.replicate (width - s.length) '0' ++ s

/-- UTC timestamp with the fields Python's `datetime` exposes to this
program (microseconds are always zero in the parsed Garmin data). -/
structure DT where
  year : Nat
  month : Nat
  day : Nat
  hour : Nat
  minute : Nat
  second : Nat
  deriving DecidableEq, Repr

/-- Days since the civil epoch 1970-01-01 (Hinnant's algorithm), used to
give `DT` the chronological order and arithmetic of `datetime`. -/
def daysFromCivil (y m d : Int) : Int :=
  let y' : Int := if m ≤ 2 then y - 1 else y
  let era : Int := Int.fdiv y' 400
  let yoe : Int := y' - era * 400
  let doy : Int := (153 * (m + (if m > 2 then -3 else 9)) + 2) / 5 + d - 1
  let doe : Int := yoe * 365 + yoe / 4 - yoe / 100 + doy
  era * 146097 + doe - 719468

/-- Seconds since the epoch; `datetime` comparison and subtraction are
modelled through this view. -/
def dtToSec (t : DT) : Int :=
  daysFromCivil t.year t.month t.day * 86400
    + t.hour * 3600 + t.minute * 60 + t.second

/-- Embedding of `ActivityFileManager._format_start_time`:
`start_time.strftime('%Y-%m-%d-%H-%M-%S')`. -/
def formatStartTime (t : DT) : Str :=
  padZero 4 t.year ++ '-' :: padZero 2 t.month ++ '-' :: padZero 2 t.day
    ++ '-' :: padZero 2 t.hour ++ '-' :: padZero 2 t.minute
    ++ '-' :: padZero 2 t.second

/-- Embedding of the `FileType` enum from `source/file_type.py`. -/
inductive FileType where
  | ACTIVITY_JSON : FileType
  | GPX : FileType
  | TCX : FileType
  | KML : FileType
  | CSV : FileType
  deriving DecidableEq, Repr

/-- Enum value string of a `FileType` (its directory token). -/
def FileType.value : FileType → Str
  | .ACTIVITY_JSON => "activity_json".toList
  | .GPX => "gpx".toList
  | .TCX => "tcx".toList
  | .KML => "kml".toList
  | .CSV => "csv".toList

/-- Embedding of `FileType.suffix`. -/
def FileType.fileSuffix : FileType → Str
  | .ACTIVITY_JSON => "json".toList
  | .GPX => "gpx".toList
  | .TCX => "tcx".toList
  | .KML => "kml".toList
  | .CSV => "csv".toList

/-- Embedding of the `FileType(value)` enum constructor lookup. -/
def FileType.ofValue (s : Str) : Option FileType :=
  if s = "activity_json".toList then some .ACTIVITY_JSON
  else if s = "gpx".toList then some .GPX
  else if s = "tcx".toList then some .TCX
  else if s = "kml".toList then some .KML
  else if s = "csv".toList then some .CSV
  else none

/-- Embedding of `FileType.gps_file_types()`: every file type except
`ACTIVITY_JSON`, in enum declaration order. -/
def FileType.gps_file_types : List FileType := [.GPX, .TCX, .KML, .CSV]

mutual
/-- JSON values, modelling the `Dict[str, Any]` raw payload of an
activity; arrays and objects carry their own list spines so that the
serializer below is structurally recursive. -/
inductive Json where
  | null : Json
  | boolean (b : Bool) : Json
  | num (n : Int) : Json
  | str (s : Str) : Json
  | arr (xs : JsonArr) : Json
  | obj (kvs : JsonObj) : Json
  deriving DecidableEq

/-- Spine of a JSON array. -/
inductive JsonArr where
  | nil : JsonArr
  | cons (hd : Json) (tl : JsonArr) : JsonArr
  deriving DecidableEq

/-- Spine of a JSON object: an ordered list of key/value pairs. -/
inductive JsonObj where
  | nil : JsonObj
  | cons (key : Str) (val : Json) (tl : JsonObj) : JsonObj
  deriving DecidableEq
end

/-- Lowercase hex digit. -/
def hexDigit : Nat → Char
  | 0 => '0' | 1 => '1' | 2 => '2' | 3 => '3' | 4 => '4'
  | 5 => '5' | 6 => '6' | 7 => '7' | 8 => '8' | 9 => '9'
  | 10 => 'a' | 11 => 'b' | 12 => 'c' | 13 => 'd' | 14 => 'e' | _ => 'f'

/-- Four lowercase hex digits, as in Python's `\uXXXX` JSON escapes. -/
def hex4 (n : Nat) : Str :=
  [hexDigit (n / 4096 % 16), hexDigit (n / 256 % 16),
   hexDigit (n / 16 % 16), hexDigit (n % 16)]

/-- Escape of one character in Python's default (`ensure_ascii`) JSON
string encoder. -/
def jsonEscapeChar (c : Char) : Str :=
  if c = '"' then ['\\', '"']
  else if c = '\\' then ['\\', '\\']
  else if c = '\n' then ['\\', 'n']
  else if c = '\r' then ['\\', 'r']
  else if c = '\t' then ['\\', 't']
  else if c.val = 8 then ['\\', 'b']
  else if c.val = 12 then ['\\', 'f']
  else if c.val < 32 then '\\' :: 'u' :: hex4 c.val.toNat
  else if c.val < 127 then [c]
  else if c.val.toNat ≤ 65535 then '\\' :: 'u' :: hex4 c.val.toNat
  else
    let v := c.val.toNat - 65536
    '\\' :: 'u' :: hex4 (55296 + v / 1024) ++ '\\' :: 'u' :: hex4 (56320 + v % 1024)

/-- JSON encoding of a string, double quotes included. -/
def jsonEncodeStr (s : Str) : Str :=
  '"' :: (s.map jsonEscapeChar).flatten ++ ['"']

/-- Indentation produced by `json.dumps(..., indent=2)` at a depth. -/
def jsonIndent (lvl : Nat) : Str := List.replicate (2 * lvl) ' '

/-- Python string comparison (code-point lexicographic), used by
`sort_keys=True`. -/
def pyStrLe : Str → Str → Bool
  | [], _ => true
  | _ :: _, [] => false
  | a :: as', b :: bs' =>
    if a.val < b.val then true
    else if b.val < a.val then false
    else pyStrLe as' bs'

/-- Stable insertion into a key-sorted list of rendered pairs. -/
def orderedInsertPair (x : Str × Str) : List (Str × Str) → List (Str × Str)
  | [] => [x]
  | y :: ys => if pyStrLe x.1 y.1 then x :: y :: ys else y :: orderedInsertPair x ys

/-- Stable sort of rendered object entries by raw key, as Python's
`sorted` over dictionary items. -/
def sortPairsByKey : List (Str × Str) → List (Str × Str)
  | [] => []
  | x :: rest => orderedInsertPair x (sortPairsByKey rest)

mutual
/-- Embedding of `json.dumps(value, indent=2, sort_keys=True)`; every
object's entries are sorted by key before rendering (each entry renders
independently of its position, so sorting rendered entries agrees with
Python's sort-then-render). -/
def dumpsVal (lvl : Nat) : Json → Str
  | .null => "null".toList
  | .boolean true => "true".toList
  | .boolean false => "false".toList
  | .num n => intRepr n
  | .str s => jsonEncodeStr s
  | .arr .nil => "[]".toList
  | .arr (.cons hd tl) =>
    '[' :: '\n' ::
      sepJoin (',' :: '\n' :: [])
        ((dumpsVal (lvl + 1) hd :: dumpsArr (lvl + 1) tl).map
          (fun r => jsonIndent (lvl + 1) ++ r))
      ++ '\n' :: jsonIndent lvl ++ [']']
  | .obj .nil => ['\x7b', '\x7d']
  | .obj (.cons k v tl) =>
    '\x7b' :: '\n' ::
      sepJoin (',' :: '\n' :: [])
        ((sortPairsByKey ((k, dumpsVal (lvl + 1) v) :: dumpsObj (lvl + 1) tl)).map
          (fun kv => jsonIndent (lvl + 1) ++ jsonEncodeStr kv.1 ++ ':' :: ' ' :: kv.2))
      ++ '\n' :: jsonIndent lvl ++ ['\x7d']

/-- Render each array element at the given depth. -/
def dumpsArr (lvl : Nat) : JsonArr → List Str
  | .nil => []
  | .cons hd tl => dumpsVal lvl hd :: dumpsArr lvl tl

/-- Render each object value at the given depth, keeping the raw key. -/
def dumpsObj (lvl : Nat) : JsonObj → List (Str × Str)
  | .nil => []
  | .cons k v tl => (k, dumpsVal lvl v) :: dumpsObj lvl tl
end

/-- Top-level `json.dumps(raw, indent=2, sort_keys=True)`. -/
def jsonDumps (j : Json) : Str := dumpsVal 0 j

/-- Activity identifiers are Python ints. -/
abbrev ActivityId := Int

/-- Embedding of the `Activity` dataclass from `source/activity.py`. -/
structure Activity where
  raw : Json
  id : ActivityId
  name : Str
  type : Str
  start_time_gmt : DT
  hasPolyline : Bool
  deriving DecidableEq

/-- Embedding of `Activity.dump`:
`json.dumps(self.raw, indent=2, sort_keys=True).encode('utf-8')`. -/
def Activity.dump (a : Activity) : Str := jsonDumps a.raw

example : jsonDumps (.obj (.cons "b".toList (.num 1)
    (.cons "a".toList (.arr (.cons (.num 2) (.cons .null .nil))) .nil)))
    = "\x7b\n  \"a\": [\n    2,\n    null\n  ],\n  \"b\": 1\n\x7d".toList := by decide

example : jsonDumps (.obj .nil) = "\x7b\x7d".toList := by decide

example : jsonDumps (.str "a\"é".toList) = "\"a\\\"\\u00e9\"".toList := by decide

example : formatStartTime ⟨2024, 1, 15, 8, 30, 0⟩ = "2024-01-15-08-30-00".toList := by decide

/-- Whitespace characters removed by Python's `str.strip()` (only the
plain space can actually survive the sanitizer's filter step). -/
def isPySpace (c : Char) : Bool :=
  c = ' ' ∨ c.val = 9 ∨ c.val = 10 ∨ c.val = 11 ∨ c.val = 12 ∨ c.val = 13

/-- Embedding of Python's `str.strip()`. -/
def pyStrip (s : Str) : Str :=
  ((s.dropWhile isPySpace).reverse.dropWhile isPySpace).reverse

/-- Keep-set of `_sanitize_filename_component`: alphanumeric, space,
hyphen or underscore. -/
def keepCh (c : Char) : Bool := c.isAlphanum ∨ c = ' ' ∨ c = '-' ∨ c = '_'

/-- Embedding of `ActivityFileManager._sanitize_filename_component`. -/
def sanitizeFilenameComponent (name : Str) : Str :=
  let s1 := name.map (fun c => if c = '/' ∨ c = '\\' then '_' else c)
  let s2 := (s1.filter keepCh)
  let s3 := pyStrip s2
  let s4 := (s3.map (fun c => if c = ' ' then '_' else c)).take 50
  if s4 = [] then "unnamed".toList else s4

/-- Embedding of the `ActivityFileManager` dataclass: the per-activity
record of which file types are already materialized. -/
structure ActivityFileManager where
  activity_id : ActivityId
  download_file_types : List FileType
  deriving DecidableEq

/-- Filename computed by `format_into_filename` once its two checks have
passed (source lines 53-56); it depends only on the activity and the
file type. -/
def fileNameFor (a : Activity) (ft : FileType) : Str :=
  formatStartTime a.start_time_gmt
    ++ '_' :: "activity".toList
    ++ '_' :: intRepr a.id
    ++ '_' :: a.type
    ++ '_' :: sanitizeFilenameComponent a.name
    ++ '.' :: ft.fileSuffix

/-- Embedding of `ActivityFileManager.format_into_filename`. -/
def ActivityFileManager.format_into_filename (afm : ActivityFileManager)
    (a : Activity) (ft : FileType) : Except String Str :=
  if a.id ≠ afm.activity_id then
    .error "Activity ID mismatch"
  else if ft ∉ afm.download_file_types then
    .error "File type not downloaded yet for this activity"
  else
    .ok (fileNameFor a ft)

/-- Embedding of `pathlib.Path(...).name` on a POSIX path string: the
part after the last separator (the program never constructs paths with
trailing or duplicated separators). -/
def pathName (p : Str) : Str := (splitOnCh '/' p).getLastD []

/-- Extension of one path component from its last dot, empty when that
dot is absent, leading or trailing (CPython's `0 < i < len(name) - 1`
rule on the index of the last dot). -/
def dotSuffixOf (name : Str) : Str :=
  if (name.reverse.takeWhile (fun c => c ≠ '.')).length = name.length then []
  else if (name.reverse.takeWhile (fun c => c ≠ '.')).length = 0 then []
  else if (name.reverse.takeWhile (fun c => c ≠ '.')).length = name.length - 1 then []
  else '.' :: (name.reverse.takeWhile (fun c => c ≠ '.')).reverse

/-- Embedding of `pathlib.Path(...).suffix` on the final component. -/
def pathSuffix (p : Str) : Str :=
  dotSuffixOf (pathName p)

/-- Embedding of `ActivityFileManager.create_from_file_path`. -/
def ActivityFileManager.create_from_file_path (path : Str) (ft : FileType) :
    Except String ActivityFileManager :=
  if pathSuffix path ≠ '.' :: ft.fileSuffix then
    .error "Invalid filename, no matching file type"
  else
    match splitOnCh '_' (pathName path) with
    | _ :: p1 :: p2 :: _ =>
      if p1 ≠ "activity".toList then
        .error "Invalid filename, no activity marker"
      else
        match parsePyInt p2 with
        | none => .error "Invalid filename, activity ID is not numeric"
        | some n => .ok ⟨n, [ft]⟩
    | _ => .error "Invalid filename, no activity marker"

/-- Concrete activity from the specification's scenario. -/
def morningRun : Activity :=
  { raw := .obj .nil
    id := 12345678901
    name := "Morning Run in Central Park".toList
    type := "running".toList
    start_time_gmt := ⟨2024, 1, 15, 8, 30, 0⟩
    hasPolyline := true }

example : fileNameFor morningRun .ACTIVITY_JSON =
    "2024-01-15-08-30-00_activity_12345678901_running_Morning_Run_in_Central_Park.json".toList := by
  decide

example : ActivityFileManager.create_from_file_path
    (fileNameFor morningRun .ACTIVITY_JSON) .ACTIVITY_JSON =
    .ok ⟨12345678901, [.ACTIVITY_JSON]⟩ := by decide

example : sanitizeFilenameComponent "  ".toList = "unnamed".toList := by decide

example : sanitizeFilenameComponent " a/b ".toList = "a_b".toList := by decide

/-- First-match association-list lookup (Python `dict` access). -/
def lookupA {κ α : Type} [DecidableEq κ] : List (κ × α) → κ → Option α
  | [], _ => none
  | (k', v') :: rest, k => if k = k' then some v' else lookupA rest k

/-- Association-list update: replace the first binding in place, or
append a new binding (Python `dict` assignment keeps insertion order). -/
def updateA {κ α : Type} [DecidableEq κ] : List (κ × α) → κ → α → List (κ × α)
  | [], k, v => [(k, v)]
  | (k', v') :: rest, k, v =>
    if k = k' then (k, v) :: rest else (k', v') :: updateA rest k v

/-- File-system state: full path string to file contents. -/
abbrev FS := List (Str × Str)

/-- Contents of the file at a path, when present. -/
def fsLookup (fs : FS) (p : Str) : Option Str := lookupA fs p

/-- Delete the file at a path when it exists (`unlink` guarded by
`exists()`); a missing file leaves the state unchanged. -/
def fsDelete (fs : FS) (p : Str) : FS := fs.filter (fun e => e.1 ≠ p)

/-- Write (create or overwrite) the file at a path. -/
def fsWrite (fs : FS) (p : Str) (content : Str) : FS := updateA fs p content

/-- Embedding of the `FileManagerConfig` dataclass; the minimum age is
a `timedelta` held as seconds. -/
structure FileManagerConfig where
  excluded_activity_ids : List ActivityId
  excluded_activity_types : List Str
  excluded_file_types : List FileType
  start_date : Option DT
  end_date : Option DT
  minimum_activity_age : Option Int
  deriving DecidableEq

/-- Embedding of the `FileManager` class state. -/
structure FileManager where
  config : FileManagerConfig
  download_directory : Str
  downloaded_activities : List (ActivityId × ActivityFileManager)
  deriving DecidableEq

/-- Embedding of the `FileManager.__init__` state. -/
def FileManager.init (config : FileManagerConfig) (dir : Str) : FileManager :=
  ⟨config, dir, []⟩

/-- Lowercase an ASCII string, as `str.lower()` on the suffixes used. -/
def pyLower (s : Str) : Str := s.map Char.toLower

/-- Name of a path's parent directory: `Path(p).parent.name`. -/
def pathParentName (p : Str) : Str :=
  let comps := splitOnCh '/' p
  if 2 ≤ comps.length then (comps.drop (comps.length - 2)).headD [] else []

/-- Embedding of `FileManager.should_ignore_file`. -/
def FileManager.should_ignore_file (_fm : FileManager) (path : Str) : Bool :=
  let ignoredNames : List Str :=
    [".DS_Store".toList, "Thumbs.db".toList, ".gitkeep".toList, ".gitignore".toList]
  let ignoredExts : List Str :=
    [".tmp".toList, ".temp".toList, ".swp".toList, ".bak".toList]
  pathName path ∈ ignoredNames ∨ pyLower (pathSuffix path) ∈ ignoredExts

/-- Add a file type to a record's set (`set.add`). -/
def addFileType (l : List FileType) (ft : FileType) : List FileType :=
  if ft ∈ l then l else l ++ [ft]

/-- Embedding of `FileManager.add_preexisting_file`. -/
def FileManager.add_preexisting_file (fm : FileManager) (path : Str) :
    Except String FileManager :=
  if fm.should_ignore_file path then .ok fm
  else
    match FileType.ofValue (pathParentName path) with
    | none => .error "Invalid file type"
    | some ft =>
      match ActivityFileManager.create_from_file_path path ft with
      | .error e => .error e
      | .ok afm =>
        match lookupA fm.downloaded_activities afm.activity_id with
        | none =>
          .ok { fm with downloaded_activities :=
                  updateA fm.downloaded_activities afm.activity_id afm }
        | some r =>
          let merged := ActivityFileManager.mk r.activity_id
            (addFileType r.download_file_types ft)
          .ok { fm with downloaded_activities :=
                  updateA fm.downloaded_activities afm.activity_id merged }

/-- Embedding of `FileManager._retrieve_download_path`. -/
def FileManager.retrieve_download_path (fm : FileManager) (a : Activity)
    (ft : FileType) : Except String Str :=
  match lookupA fm.downloaded_activities a.id with
  | none => .error "KeyError: activity not tracked"
  | some r =>
    match r.format_into_filename a ft with
    | .error e => .error e
    | .ok fn => .ok (fm.download_directory ++ '/' :: ft.value ++ '/' :: fn)

/-- Embedding of `FileManager._record_download_path`; the creation of a
fresh record with an empty set and the immediately following
`download_file_types.add(file_type)` are fused into one update per
branch (the intermediate state is never observable). -/
def FileManager.record_download_path (fm : FileManager) (aid : ActivityId)
    (ft : FileType) : FileManager :=
  match lookupA fm.downloaded_activities aid with
  | none =>
    let fresh := ActivityFileManager.mk aid (addFileType [] ft)
    { fm with downloaded_activities := updateA fm.downloaded_activities aid fresh }
  | some r =>
    let merged := ActivityFileManager.mk r.activity_id (addFileType r.download_file_types ft)
    { fm with downloaded_activities := updateA fm.downloaded_activities aid merged }

/-- Test of the gate's first skip condition: the kind is already in the
activity's record (`activity.id in self.downloaded_activities and
file_type in ...download_file_types`). -/
def materialized (fm : FileManager) (aid : ActivityId) (ft : FileType) : Bool :=
  match lookupA fm.downloaded_activities aid with
  | some r => decide (ft ∈ r.download_file_types)
  | none => false

/-- Embedding of `FileManager.record_and_retrieve_download_path`: the
central decision gate, with its skip conditions in source order. The
wall-clock `now` read inside the minimum-age branch is passed in. -/
def FileManager.record_and_retrieve_download_path (fm : FileManager) (now : DT)
    (a : Activity) (ft : FileType) : Except String (Option Str × FileManager) :=
  if materialized fm a.id ft then .ok (none, fm)
  else if a.id ∈ fm.config.excluded_activity_ids then .ok (none, fm)
  else if a.type ∈ fm.config.excluded_activity_types then .ok (none, fm)
  else if ft ∈ fm.config.excluded_file_types then .ok (none, fm)
  else if (match fm.config.start_date with
      | some sd => decide (dtToSec a.start_time_gmt < dtToSec sd)
      | none => false) then .ok (none, fm)
  else if (match fm.config.end_date with
      | some ed => decide (dtToSec ed < dtToSec a.start_time_gmt)
      | none => false) then .ok (none, fm)
  else if (match fm.config.minimum_activity_age with
      | some age => decide (dtToSec now - age < dtToSec a.start_time_gmt)
      | none => false) then .ok (none, fm)
  else if (ft = .GPX ∨ ft = .TCX) ∧ a.hasPolyline = false then .ok (none, fm)
  else
    let fm' := fm.record_download_path a.id ft
    match fm'.retrieve_download_path a ft with
    | .error e => .error e
    | .ok p => .ok (some p, fm')

/-- Delete the on-disk file of every listed file type (the loop body of
`mark_activity_as_redownloadable`). -/
def deleteFilesFor (fm : FileManager) (a : Activity) :
    FS → List FileType → Except String FS
  | fs, [] => .ok fs
  | fs, ft :: rest =>
    match fm.retrieve_download_path a ft with
    | .error e => .error e
    | .ok p => deleteFilesFor fm a (fsDelete fs p) rest

/-- Embedding of `FileManager.mark_activity_as_redownloadable`. -/
def FileManager.mark_activity_as_redownloadable (fm : FileManager) (fs : FS)
    (a : Activity) : Except String (FileManager × FS) :=
  match lookupA fm.downloaded_activities a.id with
  | none => .error "Cannot mark activity as redownloadable: activity not tracked in file manager"
  | some r =>
    match deleteFilesFor fm a fs r.download_file_types with
    | .error e => .error e
    | .ok fs' =>
      .ok ({ fm with downloaded_activities :=
               updateA fm.downloaded_activities a.id ⟨r.activity_id, []⟩ }, fs')

/-- Embedding of `FileManager.check_for_activity_changes`. -/
def FileManager.check_for_activity_changes (fm : FileManager) (fs : FS)
    (a : Activity) : Except String (FileManager × FS) :=
  match lookupA fm.downloaded_activities a.id with
  | none => .ok (fm, fs)
  | some r =>
    if .ACTIVITY_JSON ∉ r.download_file_types then .ok (fm, fs)
    else
      match fm.retrieve_download_path a .ACTIVITY_JSON with
      | .error e => .error e
      | .ok p =>
        match fsLookup fs p with
        | none => fm.mark_activity_as_redownloadable fs a
        | some existing =>
          if a.dump = existing then .ok (fm, fs)
          else fm.mark_activity_as_redownloadable fs a

example : splitOnCh '_' "a_b__c".toList = ["a".toList, "b".toList, [], "c".toList] := by decide

example : parsePyInt (intRepr (-45)) = some (-45) := by decide

example : dtToSec ⟨1970, 1, 1, 0, 0, 1⟩ = 1 := by decide

example : dtToSec ⟨2024, 1, 15, 8, 30, 0⟩ = 1705307400 := by decide

/-- Truthiness of a Python `Optional[int]`: `None` and `0` are falsy. -/
def optTruthy : Option Int → Bool
  | none => false
  | some x => x ≠ 0

/-- Exporter configuration fields used by
`download_all_activities_iteration`. -/
structure ExporterConfig where
  batch_size : Nat
  check_for_activity_changes : Bool
  always_recheck_all_activities : Bool
  deriving DecidableEq

/-- Loop state threaded through one export pass:
`current_run_oldest_downloaded_activity_id`, the file manager, the file
system and the running download/skip counters. -/
structure LoopSt where
  cur : Option Int
  fm : FileManager
  fs : FS
  dl : Nat
  sk : Nat
  deriving DecidableEq

/-- Download attempts over the GPS file types (the second half of
`Exporter._maybe_download_activity`): on a path, the bytes returned by
`api.download_activity` are written unless empty, and the download
counter increments either way. -/
def downloadGpsTypes (now : DT) (api : ActivityId → FileType → Str) (a : Activity) :
    FileManager → FS → Nat → Nat → List FileType → Except String (Nat × Nat × FileManager × FS)
  | fm, fs, d, s, [] => .ok (d, s, fm, fs)
  | fm, fs, d, s, ft :: rest =>
    match fm.record_and_retrieve_download_path now a ft with
    | .error e => .error e
    | .ok (some p, fm') =>
      let data := api a.id ft
      let fs' := if data = [] then fs else fsWrite fs p data
      downloadGpsTypes now api a fm' fs' (d + 1) s rest
    | .ok (none, fm') =>
      downloadGpsTypes now api a fm' fs d (s + 1) rest

/-- Embedding of `Exporter._maybe_download_activity`: the activity JSON
first (written from `activity.dump()`), then each GPS file type in
order. -/
def maybe_download_activity (now : DT) (api : ActivityId → FileType → Str)
    (fm : FileManager) (fs : FS) (a : Activity) :
    Except String (Nat × Nat × FileManager × FS) :=
  match fm.record_and_retrieve_download_path now a .ACTIVITY_JSON with
  | .error e => .error e
  | .ok (some p, fm1) =>
    downloadGpsTypes now api a fm1 (fsWrite fs p a.dump) 1 0 FileType.gps_file_types
  | .ok (none, fm1) =>
    downloadGpsTypes now api a fm1 fs 0 1 FileType.gps_file_types

/-- Boundary test of the per-activity loop:
`if self.oldest_downloaded_activity_id and activity.id == self.oldest_downloaded_activity_id`. -/
def boundaryHit (w : Option Int) (a : Activity) : Bool :=
  match w with
  | none => false
  | some wv => if wv = 0 then false else decide (a.id = wv)

/-- Body of the per-activity loop of
`Exporter.download_all_activities_iteration` (source lines 172-189),
processing the activities of one fetched batch in order. Returns the
final loop state, the per-activity download counts in processing order,
and the `reached_boundary` flag. -/
def processBatch (cfg : ExporterConfig) (now : DT) (api : ActivityId → FileType → Str)
    (w : Option Int) :
    LoopSt → Bool → List Activity → Except String (LoopSt × List (Activity × Nat) × Bool)
  | st, reached, [] => .ok (st, [], reached)
  | st, reached, a :: rest =>
    let cur1 := if optTruthy st.cur then st.cur else some a.id
    let reached1 := if boundaryHit w a then true else reached
    let afterCheck : Except String (FileManager × FS) :=
      if cfg.check_for_activity_changes then st.fm.check_for_activity_changes st.fs a
      else .ok (st.fm, st.fs)
    match afterCheck with
    | .error e => .error e
    | .ok (fm1, fs1) =>
      match maybe_download_activity now api fm1 fs1 a with
      | .error e => .error e
      | .ok (d, s, fm2, fs2) =>
        let cur2 := if 0 < d then some a.id else cur1
        let reached2 := if 0 < d then false else reached1
        match processBatch cfg now api w
            ⟨cur2, fm2, fs2, st.dl + d, st.sk + s⟩ reached2 rest with
        | .error e => .error e
        | .ok (st', trace, flag) => .ok (st', (a, d) :: trace, flag)

/-- Result of one export pass: the final loop state, the batch offsets
at which a fetch was performed, and the processing trace (each handled
activity with its download count). -/
structure RunResult where
  st : LoopSt
  offsets : List Nat
  trace : List (Activity × Nat)
  deriving DecidableEq

/-- Embedding of the `while True` pagination loop of
`Exporter.download_all_activities_iteration`. The activity feed is a
finite list and `api.get_activities(start, limit)` slices it; the fuel
argument only bounds the number of iterations and is chosen large
enough by the wrapper below to never run out. -/
def runLoopFuel (cfg : ExporterConfig) (now : DT) (api : ActivityId → FileType → Str)
    (w : Option Int) (feed : List Activity) :
    Nat → Nat → LoopSt → Except String RunResult
  | 0, _, _ => .error "loop fuel exhausted"
  | fuel + 1, start, st =>
    let batch := (feed.drop start).take cfg.batch_size
    if batch.isEmpty then .ok ⟨st, [start], []⟩
    else
      match processBatch cfg now api w st false batch with
      | .error e => .error e
      | .ok (st', btrace, reached) =>
        if reached ∧ cfg.always_recheck_all_activities = false then
          .ok ⟨st', [start], btrace⟩
        else
          match runLoopFuel cfg now api w feed fuel (start + cfg.batch_size) st' with
          | .error e => .error e
          | .ok res => .ok ⟨res.st, start :: res.offsets, btrace ++ res.trace⟩

/-- Embedding of `Exporter.download_all_activities_iteration`: runs the
pagination loop from offset 0 with an empty page-cursor, then updates
the watermark `oldest_downloaded_activity_id` only when the cursor is
truthy. Returns the new watermark together with the run result. -/
def download_all_activities_iteration (cfg : ExporterConfig) (now : DT)
    (api : ActivityId → FileType → Str) (feed : List Activity)
    (prevW : Option Int) (fm : FileManager) (fs : FS) :
    Except String (Option Int × RunResult) :=
  match runLoopFuel cfg now api prevW feed (feed.length + 2) 0 ⟨none, fm, fs, 0, 0⟩ with
  | .error e => .error e
  | .ok res => .ok (if optTruthy res.st.cur then res.st.cur else prevW, res)

/-- Modelled from the spec (claim C7 wording): sanitization described as
collapsing path separators to underscore, stripping all characters
except alphanumeric, space, hyphen and underscore, converting spaces to
underscore, truncating to 50 characters, and substituting `unnamed` when
empty. Note there is no trimming step. -/
def specSanitizeClaim (name : Str) : Str :=
  let s1 := name.map (fun c => if c = '/' ∨ c = '\\' then '_' else c)
  let s2 := s1.filter keepCh
  let s3 := (s2.map (fun c => if c = ' ' then '_' else c)).take 50
  if s3 = [] then "unnamed".toList else s3

/-- Modelled from the spec's filename template
`{startTime as YYYY-MM-DD-HH-MM-SS}_activity_{id}_{type}_{sanitizedName}.{suffix}`
with the claim's sanitization. -/
def specFileNameClaim (a : Activity) (ft : FileType) : Str :=
  formatStartTime a.start_time_gmt
    ++ '_' :: "activity".toList
    ++ '_' :: intRepr a.id
    ++ '_' :: a.type
    ++ '_' :: specSanitizeClaim a.name
    ++ '.' :: ft.fileSuffix

/-- Claim C7's sanitization amended with the one step the source adds:
after the keep-filter, leading and trailing whitespace is trimmed
(Python's `.strip()`) before spaces become underscores. -/
def specSanitizeAmended (name : Str) : Str :=
  let s1 := name.map (fun c => if c = '/' ∨ c = '\\' then '_' else c)
  let s2 := s1.filter keepCh
  let s3 := pyStrip s2
  let s4 := (s3.map (fun c => if c = ' ' then '_' else c)).take 50
  if s4 = [] then "unnamed".toList else s4

/-- Filename template of claim C7 with the amended sanitization. -/
def specFileNameAmended (a : Activity) (ft : FileType) : Str :=
  formatStartTime a.start_time_gmt
    ++ '_' :: "activity".toList
    ++ '_' :: intRepr a.id
    ++ '_' :: a.type
    ++ '_' :: specSanitizeAmended a.name
    ++ '.' :: ft.fileSuffix

/-- Activity whose name has a leading space, refuting claim C7's exact
sanitization pipeline. -/
def actLeadingSpace : Activity :=
  { raw := .obj .nil
    id := 1
    name := " x".toList
    type := "t".toList
    start_time_gmt := ⟨2024, 1, 15, 8, 30, 0⟩
    hasPolyline := true }

/-- Claim C7 as stated is false: for the activity named `" x"` the
encoder yields `..._t_x.json` (the source trims spaces before
converting them to underscores) while the claim's pipeline yields
`..._t__x.json`. -/
theorem filename_encoding_counterexample :
    (ActivityFileManager.mk 1 [.ACTIVITY_JSON]).format_into_filename
        actLeadingSpace .ACTIVITY_JSON = .ok (fileNameFor actLeadingSpace .ACTIVITY_JSON)
      ∧ fileNameFor actLeadingSpace .ACTIVITY_JSON
          = "2024-01-15-08-30-00_activity_1_t_x.json".toList
      ∧ specFileNameClaim actLeadingSpace .ACTIVITY_JSON
          = "2024-01-15-08-30-00_activity_1_t__x.json".toList
      ∧ fileNameFor actLeadingSpace .ACTIVITY_JSON
          ≠ specFileNameClaim actLeadingSpace .ACTIVITY_JSON := by
  refine ⟨rfl, by decide, by decide, by decide⟩

/-- Claim C7 amended: whenever `format_into_filename` succeeds, the
filename follows the spec's template where the sanitized name is
obtained by collapsing path separators to underscore, stripping all
characters except alphanumeric, space, hyphen and underscore, trimming
leading and trailing whitespace, converting spaces to underscore,
truncating to 50 characters, and substituting `unnamed` when empty. -/
theorem filename_encoding_theorem (afm : ActivityFileManager) (a : Activity)
    (ft : FileType) (s : Str)
    (h : afm.format_into_filename a ft = .ok s) :
    s = specFileNameAmended a ft := by
  unfold ActivityFileManager.format_into_filename at h
  split at h
  · cases h
  · split at h
    · cases h
    · injection h with h'
      subst h'
      rfl

/-- Witness for claim C7's theorem at the specification's concrete
scenario: the Morning Run activity's metadata filename. -/
theorem filename_encoding_witness :
    (ActivityFileManager.mk 12345678901 [.ACTIVITY_JSON]).format_into_filename
        morningRun .ACTIVITY_JSON
      = .ok (specFileNameAmended morningRun .ACTIVITY_JSON)
    ∧ specFileNameAmended morningRun .ACTIVITY_JSON
      = "2024-01-15-08-30-00_activity_12345678901_running_Morning_Run_in_Central_Park.json".toList := by
  have h : (ActivityFileManager.mk 12345678901 [.ACTIVITY_JSON]).format_into_filename
      morningRun .ACTIVITY_JSON = .ok (fileNameFor morningRun .ACTIVITY_JSON) := rfl
  have h2 := filename_encoding_theorem _ morningRun .ACTIVITY_JSON _ h
  exact ⟨h2 ▸ h, h2 ▸ (by decide)⟩

theorem digitChar_isDigit {n : Nat} (h : n < 10) : isDigitCh (digitChar n) = true := by
  interval_cases n <;> decide

theorem digitVal_digitChar {n : Nat} (h : n < 10) : digitVal (digitChar n) = n := by
  interval_cases n <;> decide

theorem natReprAux_digits {fuel n : Nat} (h : n < fuel) :
    ∀ c ∈ natReprAux fuel n, isDigitCh c = true := by
  induction fuel generalizing n with
  | zero => omega
  | succ f ih =>
    intro c hc
    unfold natReprAux at hc
    split at hc
    · next h10 =>
      simp only [List.mem_singleton] at hc
      subst hc
      exact digitChar_isDigit h10
    · next h10 =>
      have hdiv : n / 10 < n := Nat.div_lt_self (by omega) (by omega)
      rcases List.mem_append.mp hc with h1 | h2
      · exact ih (by omega) c h1
      · simp only [List.mem_singleton] at h2
        subst h2
        exact digitChar_isDigit (Nat.mod_lt _ (by omega))

theorem natRepr_digits {n : Nat} : ∀ c ∈ natRepr n, isDigitCh c = true :=
  natReprAux_digits (Nat.lt_succ_self n)

theorem natReprAux_ne_nil {fuel n : Nat} (h : n < fuel) : natReprAux fuel n ≠ [] := by
  cases fuel with
  | zero => omega
  | succ f =>
    unfold natReprAux
    split
    · simp
    · simp

theorem natRepr_ne_nil {n : Nat} : natRepr n ≠ [] :=
  natReprAux_ne_nil (Nat.lt_succ_self n)

theorem natReprAux_foldl {fuel n : Nat} (h : n < fuel) :
    (natReprAux fuel n).foldl (fun a c => a * 10 + digitVal c) 0 = n := by
  induction fuel generalizing n with
  | zero => omega
  | succ f ih =>
    unfold natReprAux
    split
    · next h10 =>
      simp [List.foldl, digitVal_digitChar h10]
    · next h10 =>
      have hdiv : n / 10 < n := Nat.div_lt_self (by omega) (by omega)
      rw [List.foldl_append, ih (by omega)]
      simp [digitVal_digitChar (Nat.mod_lt n (show 0 < 10 by omega))]
      omega

theorem parseNatDigits_natRepr (n : Nat) : parseNatDigits (natRepr n) = some n := by
  unfold parseNatDigits
  rw [if_pos]
  · unfold natRepr
    rw [natReprAux_foldl (Nat.lt_succ_self n)]
  · exact ⟨natRepr_ne_nil, List.all_eq_true.mpr natRepr_digits⟩

theorem isDigitCh_ne {c : Char} (h : isDigitCh c = true) :
    c ≠ '_' ∧ c ≠ '/' ∧ c ≠ '.' ∧ c ≠ '-' ∧ c ≠ '+' := by
  refine ⟨?_, ?_, ?_, ?_, ?_⟩ <;> (intro he; subst he; exact absurd h (by decide))

theorem parsePyInt_intRepr (i : Int) : parsePyInt (intRepr i) = some i := by
  by_cases hi : i < 0
  · unfold intRepr
    rw [if_pos hi]
    rw [parsePyInt, if_pos rfl, parseNatDigits_natRepr]
    simp only [Option.some.injEq]
    omega
  · unfold intRepr
    rw [if_neg hi]
    rcases hrep : natRepr i.natAbs with _ | ⟨c, rest⟩
    · exact absurd hrep natRepr_ne_nil
    · have hdig : isDigitCh c = true := by
        apply natRepr_digits
        rw [hrep]
        exact List.mem_cons_self _ _
      have hne := isDigitCh_ne hdig
      rw [parsePyInt, if_neg hne.2.2.2.1, if_neg hne.2.2.2.2, ← hrep,
        parseNatDigits_natRepr]
      simp only [Option.some.injEq]
      omega

theorem splitOnCh_ne_nil {sep : Char} (s : Str) : splitOnCh sep s ≠ [] := by
  cases s with
  | nil => simp [splitOnCh]
  | cons c rest =>
    simp only [splitOnCh]
    split
    · simp
    · split <;> simp

theorem splitOnCh_of_not_mem {sep : Char} {s : Str} (h : sep ∉ s) :
    splitOnCh sep s = [s] := by
  induction s with
  | nil => rfl
  | cons c rest ih =>
    have hc : ¬(c = sep) := fun e => h (by rw [e]; exact List.mem_cons_self _ _)
    have hr : sep ∉ rest := fun m => h (List.mem_cons_of_mem _ m)
    simp only [splitOnCh, if_neg hc, ih hr]

theorem splitOnCh_append {sep : Char} {a b : Str} (h : sep ∉ a) :
    splitOnCh sep (a ++ sep :: b) = a :: splitOnCh sep b := by
  induction a with
  | nil => simp [splitOnCh]
  | cons c rest ih =>
    have hc : ¬(c = sep) := fun e => h (by rw [e]; exact List.mem_cons_self _ _)
    have hr : sep ∉ rest := fun m => h (List.mem_cons_of_mem _ m)
    simp only [List.cons_append, splitOnCh, List.append_eq]
    rw [if_neg hc, ih hr]

theorem takeWhile_ne_append {x : Char} {a b : Str} (h : ∀ c ∈ a, c ≠ x) :
    (a ++ x :: b).takeWhile (fun c => c ≠ x) = a := by
  induction a with
  | nil =>
    simp only [List.nil_append, List.takeWhile_cons]
    rw [if_neg]
    simp
  | cons c rest ih =>
    have hc : c ≠ x := h c (List.mem_cons_self _ _)
    have hr : ∀ c' ∈ rest, c' ≠ x := fun c' m => h c' (List.mem_cons_of_mem _ m)
    simp only [List.cons_append, List.takeWhile_cons]
    rw [if_pos (by simp [hc]), ih hr]

theorem pathName_of_no_slash {s : Str} (h : '/' ∉ s) : pathName s = s := by
  unfold pathName
  rw [splitOnCh_of_not_mem h]
  rfl

theorem pathSuffix_concat {stem sfx : Str} (hs : stem ≠ []) (hx : sfx ≠ [])
    (hdot : '.' ∉ sfx) (hsl : '/' ∉ stem ++ '.' :: sfx) :
    pathSuffix (stem ++ '.' :: sfx) = '.' :: sfx := by
  unfold pathSuffix dotSuffixOf
  rw [pathName_of_no_slash hsl]
  have hrev : (stem ++ '.' :: sfx).reverse = sfx.reverse ++ '.' :: stem.reverse := by
    simp
  have hrevdot : ∀ c ∈ sfx.reverse, c ≠ '.' := by
    intro c m e
    exact hdot (e ▸ List.mem_reverse.mp m)
  rw [hrev, takeWhile_ne_append hrevdot]
  have hxl : sfx.length ≠ 0 := fun e => hx (List.length_eq_zero.mp e)
  have hsl' : stem.length ≠ 0 := fun e => hs (List.length_eq_zero.mp e)
  have h1 : sfx.reverse.length ≠ (stem ++ '.' :: sfx).length := by
    simp only [List.length_reverse, List.length_append, List.length_cons]
    omega
  have h2 : sfx.reverse.length ≠ 0 := by
    simp only [List.length_reverse]
    omega
  have h3 : sfx.reverse.length ≠ (stem ++ '.' :: sfx).length - 1 := by
    simp only [List.length_reverse, List.length_append, List.length_cons]
    omega
  rw [if_neg h1, if_neg h2, if_neg h3, List.reverse_reverse]

theorem mem_padZero {w n : Nat} {c : Char} (h : c ∈ padZero w n) : isDigitCh c = true := by
  simp only [padZero] at h
  rcases List.mem_append.mp h with h1 | h2
  · rw [List.eq_of_mem_replicate h1]
    decide
  · exact natRepr_digits c h2

theorem formatStartTime_ra (t : DT) : formatStartTime t =
    padZero 4 t.year ++ '-' :: (padZero 2 t.month ++ '-' :: (padZero 2 t.day
      ++ '-' :: (padZero 2 t.hour ++ '-' :: (padZero 2 t.minute
      ++ '-' :: padZero 2 t.second)))) := by
  simp [formatStartTime]

theorem fileNameFor_ra (a : Activity) (ft : FileType) : fileNameFor a ft =
    formatStartTime a.start_time_gmt ++ '_' :: ("activity".toList
      ++ '_' :: (intRepr a.id ++ '_' :: (a.type
      ++ '_' :: (sanitizeFilenameComponent a.name ++ '.' :: ft.fileSuffix)))) := by
  simp [fileNameFor]

theorem mem_formatStartTime {t : DT} {c : Char} (h : c ∈ formatStartTime t) :
    isDigitCh c = true ∨ c = '-' := by
  rw [formatStartTime_ra] at h
  rcases List.mem_append.mp h with h | h
  · exact .inl (mem_padZero h)
  rcases List.mem_cons.mp h with rfl | h
  · exact .inr rfl
  rcases List.mem_append.mp h with h | h
  · exact .inl (mem_padZero h)
  rcases List.mem_cons.mp h with rfl | h
  · exact .inr rfl
  rcases List.mem_append.mp h with h | h
  · exact .inl (mem_padZero h)
  rcases List.mem_cons.mp h with rfl | h
  · exact .inr rfl
  rcases List.mem_append.mp h with h | h
  · exact .inl (mem_padZero h)
  rcases List.mem_cons.mp h with rfl | h
  · exact .inr rfl
  rcases List.mem_append.mp h with h | h
  · exact .inl (mem_padZero h)
  rcases List.mem_cons.mp h with rfl | h
  · exact .inr rfl
  exact .inl (mem_padZero h)

theorem mem_intRepr {i : Int} {c : Char} (h : c ∈ intRepr i) :
    isDigitCh c = true ∨ c = '-' := by
  unfold intRepr at h
  split at h
  · rcases List.mem_cons.mp h with rfl | h2
    · exact .inr rfl
    · exact .inl (natRepr_digits c h2)
  · exact .inl (natRepr_digits c h)

theorem mem_pyStrip {s : Str} {c : Char} (h : c ∈ pyStrip s) : c ∈ s := by
  unfold pyStrip at h
  rw [List.mem_reverse] at h
  have h2 := (List.dropWhile_sublist _).subset h
  rw [List.mem_reverse] at h2
  exact (List.dropWhile_sublist _).subset h2

theorem mem_sanitize {name : Str} {c : Char} (h : c ∈ sanitizeFilenameComponent name) :
    c.isAlphanum = true ∨ c = '-' ∨ c = '_' := by
  simp only [sanitizeFilenameComponent] at h
  split at h
  · have hall : ∀ x ∈ "unnamed".toList, x.isAlphanum = true := by decide
    exact .inl (hall c h)
  · have h' := List.mem_of_mem_take h
    rcases List.mem_map.mp h' with ⟨c', hc', rfl⟩
    have hkeep : keepCh c' = true := List.of_mem_filter (mem_pyStrip hc')
    simp only [keepCh, Bool.decide_or, Bool.or_eq_true, decide_eq_true_eq] at hkeep
    rcases hkeep with hk | rfl | rfl | rfl
    · by_cases hsp : c' = ' '
      · subst hsp
        exact absurd hk (by decide)
      · rw [if_neg hsp]
        exact .inl hk
    · exact .inr (.inr (by rfl))
    · exact .inr (.inl (by rfl))
    · exact .inr (.inr (by rfl))

theorem no_us_formatStartTime {t : DT} : '_' ∉ formatStartTime t := by
  intro h
  rcases mem_formatStartTime h with hd | he
  · exact absurd hd (by decide)
  · exact absurd he (by decide)

theorem no_us_intRepr {i : Int} : '_' ∉ intRepr i := by
  intro h
  rcases mem_intRepr h with hd | he
  · exact absurd hd (by decide)
  · exact absurd he (by decide)

theorem no_slash_fileNameFor {a : Activity} {ft : FileType} (hty : '/' ∉ a.type) :
    '/' ∉ fileNameFor a ft := by
  intro h
  rw [fileNameFor_ra] at h
  rcases List.mem_append.mp h with h | h
  · rcases mem_formatStartTime h with hd | he
    · exact absurd hd (by decide)
    · exact absurd he (by decide)
  rcases List.mem_cons.mp h with he | h
  · exact absurd he (by decide)
  rcases List.mem_append.mp h with h | h
  · exact absurd h (by decide)
  rcases List.mem_cons.mp h with he | h
  · exact absurd he (by decide)
  rcases List.mem_append.mp h with h | h
  · rcases mem_intRepr h with hd | he
    · exact absurd hd (by decide)
    · exact absurd he (by decide)
  rcases List.mem_cons.mp h with he | h
  · exact absurd he (by decide)
  rcases List.mem_append.mp h with h | h
  · exact hty h
  rcases List.mem_cons.mp h with he | h
  · exact absurd he (by decide)
  rcases List.mem_append.mp h with h | h
  · rcases mem_sanitize h with hd | he | he
    · exact absurd hd (by decide)
    · exact absurd he (by decide)
    · exact absurd he (by decide)
  rcases List.mem_cons.mp h with he | h
  · exact absurd he (by decide)
  exact absurd h (by cases ft <;> decide)

theorem natRepr_length_pos {n : Nat} : 0 < (natRepr n).length :=
  List.length_pos.mpr natRepr_ne_nil

theorem formatStartTime_ne_nil {t : DT} : formatStartTime t ≠ [] := by
  intro e
  have hl := congrArg List.length e
  simp only [formatStartTime, padZero, List.length_append, List.length_cons,
    List.length_replicate, List.length_nil] at hl
  have h1 := @natRepr_length_pos t.year
  omega

theorem decode_encode {a : Activity} {ft : FileType} (hty : '/' ∉ a.type) :
    ActivityFileManager.create_from_file_path (fileNameFor a ft) ft
      = .ok (ActivityFileManager.mk a.id [ft]) := by
  have hsl : '/' ∉ fileNameFor a ft := no_slash_fileNameFor hty
  have hdec : fileNameFor a ft =
      (formatStartTime a.start_time_gmt ++ '_' :: ("activity".toList
        ++ '_' :: (intRepr a.id ++ '_' :: (a.type
        ++ '_' :: sanitizeFilenameComponent a.name)))) ++ '.' :: ft.fileSuffix := by
    simp [fileNameFor]
  have hstem : (formatStartTime a.start_time_gmt ++ '_' :: ("activity".toList
      ++ '_' :: (intRepr a.id ++ '_' :: (a.type
      ++ '_' :: sanitizeFilenameComponent a.name)))) ≠ [] := by
    intro e
    exact formatStartTime_ne_nil (List.append_eq_nil.mp e).1
  have hsfx_ne : ft.fileSuffix ≠ [] := by cases ft <;> decide
  have hsfx_nodot : '.' ∉ ft.fileSuffix := by cases ft <;> decide
  have hps : pathSuffix (fileNameFor a ft) = '.' :: ft.fileSuffix := by
    rw [hdec]
    exact pathSuffix_concat hstem hsfx_ne hsfx_nodot (hdec ▸ hsl)
  have hpn : pathName (fileNameFor a ft) = fileNameFor a ft := pathName_of_no_slash hsl
  have hsp : splitOnCh '_' (fileNameFor a ft) =
      formatStartTime a.start_time_gmt :: "activity".toList :: intRepr a.id ::
        splitOnCh '_' (a.type ++ '_' :: (sanitizeFilenameComponent a.name
          ++ '.' :: ft.fileSuffix)) := by
    rw [fileNameFor_ra, splitOnCh_append no_us_formatStartTime,
      splitOnCh_append (by decide : '_' ∉ "activity".toList),
      splitOnCh_append no_us_intRepr]
  unfold ActivityFileManager.create_from_file_path
  rw [hps, if_neg (by simp), hpn, hsp]
  simp only [ne_eq, not_true_eq_false, if_neg, ite_false, if_false]
  rw [parsePyInt_intRepr]

/-- Activity whose type string contains a path separator; the type is
interpolated into the filename unsanitized. -/
def actSlashType : Activity :=
  { raw := .obj .nil
    id := 77
    name := "hike".toList
    type := "run/walk".toList
    start_time_gmt := ⟨2024, 1, 15, 8, 30, 0⟩
    hasPolyline := true }

/-- Claim C2 as stated (quantified over every activity) is false: for an
activity whose type contains `/`, encoding succeeds but decoding the
encoded filename fails (the name component after the last separator has
fewer than three underscore-delimited tokens), so the round trip does
not hold. -/
theorem roundtrip_counterexample :
    (ActivityFileManager.mk 77 [.GPX]).format_into_filename actSlashType .GPX
      = .ok (fileNameFor actSlashType .GPX)
    ∧ ActivityFileManager.create_from_file_path (fileNameFor actSlashType .GPX) .GPX
      = .error "Invalid filename, no activity marker" := by
  exact ⟨rfl, by decide⟩

/-- Claim C2 amended: for every activity whose type contains no path
separator `/` (the name remains fully adversarial: empty, over-length,
slash-containing and non-alphanumeric names are all covered by the
unrestricted `a.name`), and for every file kind, decoding the encoded
filename yields a record whose activity id equals the activity's id,
and re-encoding from that record produces the identical filename. -/
theorem roundtrip_theorem (a : Activity) (ft : FileType) (hty : '/' ∉ a.type) :
    ActivityFileManager.create_from_file_path (fileNameFor a ft) ft
        = .ok (ActivityFileManager.mk a.id [ft])
    ∧ (ActivityFileManager.mk a.id [ft]).activity_id = a.id
    ∧ (ActivityFileManager.mk a.id [ft]).format_into_filename a ft
        = .ok (fileNameFor a ft) := by
  refine ⟨decode_encode hty, rfl, ?_⟩
  unfold ActivityFileManager.format_into_filename
  rw [if_neg (by simp), if_neg (by simp)]

/-- Witness for claim C2's amended theorem at the specification's
concrete scenario activity and the GPX kind. -/
theorem roundtrip_witness :
    '/' ∉ morningRun.type
    ∧ ActivityFileManager.create_from_file_path (fileNameFor morningRun .GPX) .GPX
        = .ok (ActivityFileManager.mk morningRun.id [.GPX]) := by
  have h := roundtrip_theorem morningRun .GPX (by decide)
  exact ⟨by decide, h.1⟩

/-- Ledger map invariant (claim C10): every record in
`downloaded_activities` is keyed by its own `activity_id`. -/
def WellFormed (fm : FileManager) : Prop :=
  ∀ k r, lookupA fm.downloaded_activities k = some r → r.activity_id = k

/-- Canonical on-disk destination of one (activity, kind) pair:
`{downloadRoot}/{kindToken}/{filename}`. -/
def canonicalPath (fm : FileManager) (a : Activity) (ft : FileType) : Str :=
  fm.download_directory ++ '/' :: ft.value ++ '/' :: fileNameFor a ft

theorem lookupA_updateA_self {κ α : Type} [DecidableEq κ]
    (m : List (κ × α)) (k : κ) (v : α) : lookupA (updateA m k v) k = some v := by
  induction m with
  | nil => simp [updateA, lookupA]
  | cons e rest ih =>
    by_cases hk : k = e.1
    · simp [updateA, hk, lookupA]
    · simp [updateA, hk, lookupA, ih]

theorem lookupA_updateA_ne {κ α : Type} [DecidableEq κ]
    {m : List (κ × α)} {k k' : κ} {v : α} (h : k' ≠ k) :
    lookupA (updateA m k v) k' = lookupA m k' := by
  induction m with
  | nil => simp [updateA, lookupA, h]
  | cons e rest ih =>
    by_cases hk : k = e.1
    · subst hk
      simp [updateA, lookupA, h, ih]
    · by_cases hk' : k' = e.1
      · simp [updateA, lookupA, hk, hk']
      · simp [updateA, lookupA, hk, hk', ih]

theorem mem_addFileType (l : List FileType) (ft : FileType) : ft ∈ addFileType l ft := by
  unfold addFileType
  split
  · assumption
  · simp

/-- Updating a record at its own activity id preserves well-formedness;
stated through the resulting map so it applies to any record-update
result. -/
theorem wellFormed_updateA {fm fm' : FileManager} (hwf : WellFormed fm)
    (aid : ActivityId) (tys : List FileType)
    (he : fm'.downloaded_activities
      = updateA fm.downloaded_activities aid (ActivityFileManager.mk aid tys)) :
    WellFormed fm' := by
  intro k r hl
  rw [he] at hl
  by_cases hk : k = aid
  · subst hk
    rw [lookupA_updateA_self] at hl
    cases hl
    rfl
  · rw [lookupA_updateA_ne hk] at hl
    exact hwf k r hl

theorem format_ok {a : Activity} {ft : FileType} {tys : List FileType} (hft : ft ∈ tys) :
    (ActivityFileManager.mk a.id tys).format_into_filename a ft
      = .ok (fileNameFor a ft) := by
  unfold ActivityFileManager.format_into_filename
  rw [if_neg (by simp), if_neg (by simp [hft])]

theorem record_download_path_spec (fm : FileManager) (aid : ActivityId) (ft : FileType)
    (hwf : WellFormed fm) :
    (∃ tys, lookupA (fm.record_download_path aid ft).downloaded_activities aid
        = some (ActivityFileManager.mk aid tys) ∧ ft ∈ tys)
    ∧ WellFormed (fm.record_download_path aid ft)
    ∧ (fm.record_download_path aid ft).config = fm.config
    ∧ (fm.record_download_path aid ft).download_directory = fm.download_directory := by
  cases hl : lookupA fm.downloaded_activities aid with
  | none =>
    refine ⟨⟨addFileType [] ft, ?_, mem_addFileType _ _⟩, ?_, ?_, ?_⟩ <;>
      simp only [FileManager.record_download_path, hl]
    · exact lookupA_updateA_self _ _ _
    · exact wellFormed_updateA hwf aid (addFileType [] ft) rfl
  | some r =>
    have hid : r.activity_id = aid := hwf aid r hl
    refine ⟨⟨addFileType r.download_file_types ft, ?_, mem_addFileType _ _⟩, ?_, ?_, ?_⟩ <;>
      simp only [FileManager.record_download_path, hl, hid]
    · exact lookupA_updateA_self _ _ _
    · exact wellFormed_updateA hwf aid (addFileType r.download_file_types ft) (by simp [hid])

theorem retrieve_ok {fm : FileManager} {a : Activity} {ft : FileType} {tys : List FileType}
    (hl : lookupA fm.downloaded_activities a.id = some (ActivityFileManager.mk a.id tys))
    (hft : ft ∈ tys) :
    fm.retrieve_download_path a ft = .ok (canonicalPath fm a ft) := by
  simp only [FileManager.retrieve_download_path, hl, format_ok hft]
  rfl

/-- General success of `_retrieve_download_path` under the ledger
invariant: any tracked activity with the kind in its record resolves to
the canonical path. -/
theorem retrieve_ok_of_wf {fm : FileManager} {a : Activity} {ft : FileType}
    {r : ActivityFileManager} (hwf : WellFormed fm)
    (hl : lookupA fm.downloaded_activities a.id = some r)
    (hft : ft ∈ r.download_file_types) :
    fm.retrieve_download_path a ft = .ok (canonicalPath fm a ft) := by
  have hid : r.activity_id = a.id := hwf _ _ hl
  have hr : r = ActivityFileManager.mk a.id r.download_file_types := by
    cases r
    simp_all
  exact retrieve_ok (hr ▸ hl) hft

/-- Evaluation of the decision gate when every configured filter
declines to fire: only the polyline gate can still skip. -/
theorem decide_no_filters (fm : FileManager) (now : DT) (a : Activity) (ft : FileType)
    (hwf : WellFormed fm)
    (hm : materialized fm a.id ft = false)
    (hid : a.id ∉ fm.config.excluded_activity_ids)
    (htyp : a.type ∉ fm.config.excluded_activity_types)
    (hk : ft ∉ fm.config.excluded_file_types)
    (hsd : ∀ sd, fm.config.start_date = some sd
      → ¬(dtToSec a.start_time_gmt < dtToSec sd))
    (hed : ∀ ed, fm.config.end_date = some ed
      → ¬(dtToSec ed < dtToSec a.start_time_gmt))
    (hage : ∀ ag, fm.config.minimum_activity_age = some ag
      → ¬(dtToSec now - ag < dtToSec a.start_time_gmt)) :
    fm.record_and_retrieve_download_path now a ft =
      if (ft = .GPX ∨ ft = .TCX) ∧ a.hasPolyline = false then .ok (none, fm)
      else .ok (some (canonicalPath (fm.record_download_path a.id ft) a ft),
        fm.record_download_path a.id ft) := by
  have h5 : (match fm.config.start_date with
      | some sd => decide (dtToSec a.start_time_gmt < dtToSec sd)
      | none => false) = false := by
    cases hc : fm.config.start_date with
    | none => rfl
    | some sd => exact decide_eq_false (hsd sd hc)
  have h6 : (match fm.config.end_date with
      | some ed => decide (dtToSec ed < dtToSec a.start_time_gmt)
      | none => false) = false := by
    cases hc : fm.config.end_date with
    | none => rfl
    | some ed => exact decide_eq_false (hed ed hc)
  have h7 : (match fm.config.minimum_activity_age with
      | some age => decide (dtToSec now - age < dtToSec a.start_time_gmt)
      | none => false) = false := by
    cases hc : fm.config.minimum_activity_age with
    | none => rfl
    | some ag => exact decide_eq_false (hage ag hc)
  unfold FileManager.record_and_retrieve_download_path
  rw [hm, if_neg (by simp), if_neg hid, if_neg htyp, if_neg hk,
    h5, if_neg (by simp), h6, if_neg (by simp), h7, if_neg (by simp)]
  by_cases hp : (ft = .GPX ∨ ft = .TCX) ∧ a.hasPolyline = false
  · rw [if_pos hp, if_pos hp]
  · rw [if_neg hp, if_neg hp]
    obtain ⟨⟨tys, hlt, hmem⟩, _, _, _⟩ := record_download_path_spec fm a.id ft hwf
    simp only [retrieve_ok hlt hmem]

/-- Claim C6: for every activity with no track data that passes all
other filters, `decide` returns no path for `trackGPX` and `trackTCX`,
still returns a path for `metadata`, and the gate does not apply to
`trackKML` or `trackCSV` (both still return a path). -/
theorem polyline_gating_theorem (fm : FileManager) (now : DT) (a : Activity)
    (hwf : WellFormed fm)
    (hnp : a.hasPolyline = false)
    (hms : ∀ ft, materialized fm a.id ft = false)
    (hid : a.id ∉ fm.config.excluded_activity_ids)
    (htyp : a.type ∉ fm.config.excluded_activity_types)
    (hks : ∀ ft, ft ∉ fm.config.excluded_file_types)
    (hsd : ∀ sd, fm.config.start_date = some sd
      → ¬(dtToSec a.start_time_gmt < dtToSec sd))
    (hed : ∀ ed, fm.config.end_date = some ed
      → ¬(dtToSec ed < dtToSec a.start_time_gmt))
    (hage : ∀ ag, fm.config.minimum_activity_age = some ag
      → ¬(dtToSec now - ag < dtToSec a.start_time_gmt)) :
    fm.record_and_retrieve_download_path now a .GPX = .ok (none, fm)
    ∧ fm.record_and_retrieve_download_path now a .TCX = .ok (none, fm)
    ∧ (∃ p fm', fm.record_and_retrieve_download_path now a .ACTIVITY_JSON
        = .ok (some p, fm'))
    ∧ (∃ p fm', fm.record_and_retrieve_download_path now a .KML = .ok (some p, fm'))
    ∧ (∃ p fm', fm.record_and_retrieve_download_path now a .CSV = .ok (some p, fm')) := by
  refine ⟨?_, ?_, ?_, ?_, ?_⟩
  · rw [decide_no_filters fm now a .GPX hwf (hms _) hid htyp (hks _) hsd hed hage,
      if_pos ⟨.inl rfl, hnp⟩]
  · rw [decide_no_filters fm now a .TCX hwf (hms _) hid htyp (hks _) hsd hed hage,
      if_pos ⟨.inr rfl, hnp⟩]
  · rw [decide_no_filters fm now a .ACTIVITY_JSON hwf (hms _) hid htyp (hks _) hsd hed hage,
      if_neg (by simp)]
    exact ⟨_, _, rfl⟩
  · rw [decide_no_filters fm now a .KML hwf (hms _) hid htyp (hks _) hsd hed hage,
      if_neg (by simp)]
    exact ⟨_, _, rfl⟩
  · rw [decide_no_filters fm now a .CSV hwf (hms _) hid htyp (hks _) hsd hed hage,
      if_neg (by simp)]
    exact ⟨_, _, rfl⟩

/-- Configuration with no filters at all. -/
def cfgEmpty : FileManagerConfig := ⟨[], [], [], none, none, none⟩

/-- Fresh file manager over the default download root. -/
def fmEmpty : FileManager := FileManager.init cfgEmpty "/app/garmin_downloads".toList

/-- Reference wall-clock instant used by concrete witnesses. -/
def dtNow : DT := ⟨2024, 6, 1, 0, 0, 0⟩

/-- The specification's concrete activity, with no track data. -/
def noTrackActivity : Activity := { morningRun with hasPolyline := false }

/-- Witness for claim C6's theorem at a concrete no-track activity over
a fresh unfiltered ledger. -/
theorem polyline_gating_witness :
    noTrackActivity.hasPolyline = false
    ∧ fmEmpty.record_and_retrieve_download_path dtNow noTrackActivity .GPX
        = .ok (none, fmEmpty)
    ∧ fmEmpty.record_and_retrieve_download_path dtNow noTrackActivity .TCX
        = .ok (none, fmEmpty)
    ∧ (∃ p fm', fmEmpty.record_and_retrieve_download_path dtNow noTrackActivity
        .ACTIVITY_JSON = .ok (some p, fm')) := by
  have h := polyline_gating_theorem fmEmpty dtNow noTrackActivity
    (by intro k r hl; simp [fmEmpty, FileManager.init, lookupA] at hl)
    rfl
    (by intro ft; rfl)
    (by simp [fmEmpty, FileManager.init, cfgEmpty])
    (by simp [fmEmpty, FileManager.init, cfgEmpty])
    (by intro ft; simp [fmEmpty, FileManager.init, cfgEmpty])
    (by intro sd hc; simp [fmEmpty, FileManager.init, cfgEmpty] at hc)
    (by intro ed hc; simp [fmEmpty, FileManager.init, cfgEmpty] at hc)
    (by intro ag hc; simp [fmEmpty, FileManager.init, cfgEmpty] at hc)
  exact ⟨rfl, h.1, h.2.1, h.2.2.1⟩

theorem add_preexisting_wf {fm fm' : FileManager} {p : Str} (hwf : WellFormed fm)
    (h : fm.add_preexisting_file p = .ok fm') : WellFormed fm' := by
  unfold FileManager.add_preexisting_file at h
  split at h
  · injection h with h'
    rw [← h']
    exact hwf
  · split at h
    · cases h
    · next ft hof =>
      split at h
      · cases h
      · next afm hcr =>
        split at h
        · injection h with h'
          rw [← h']
          exact wellFormed_updateA hwf afm.activity_id afm.download_file_types rfl
        · next r heq =>
          have hid : r.activity_id = afm.activity_id := hwf _ _ heq
          injection h with h'
          rw [← h']
          exact wellFormed_updateA hwf afm.activity_id
            (addFileType r.download_file_types ft) (by rw [hid])

theorem decide_wf {fm : FileManager} {res : Option Str × FileManager} {now : DT}
    {a : Activity} {ft : FileType} (hwf : WellFormed fm)
    (h : fm.record_and_retrieve_download_path now a ft = .ok res) :
    WellFormed res.2 := by
  unfold FileManager.record_and_retrieve_download_path at h
  split at h
  · injection h with h'; rw [← h']; exact hwf
  split at h
  · injection h with h'; rw [← h']; exact hwf
  split at h
  · injection h with h'; rw [← h']; exact hwf
  split at h
  · injection h with h'; rw [← h']; exact hwf
  split at h
  · injection h with h'; rw [← h']; exact hwf
  split at h
  · injection h with h'; rw [← h']; exact hwf
  split at h
  · injection h with h'; rw [← h']; exact hwf
  split at h
  · injection h with h'; rw [← h']; exact hwf
  obtain ⟨⟨tys, hlt, hmem⟩, hwf', _, _⟩ := record_download_path_spec fm a.id ft hwf
  simp only [retrieve_ok hlt hmem] at h
  injection h with h'
  rw [← h']
  exact hwf'

theorem decide_ok {fm : FileManager} (hwf : WellFormed fm) (now : DT) (a : Activity)
    (ft : FileType) :
    ∃ res, fm.record_and_retrieve_download_path now a ft = .ok res := by
  unfold FileManager.record_and_retrieve_download_path
  split
  · exact ⟨_, rfl⟩
  split
  · exact ⟨_, rfl⟩
  split
  · exact ⟨_, rfl⟩
  split
  · exact ⟨_, rfl⟩
  split
  · exact ⟨_, rfl⟩
  split
  · exact ⟨_, rfl⟩
  split
  · exact ⟨_, rfl⟩
  split
  · exact ⟨_, rfl⟩
  obtain ⟨⟨tys, hlt, hmem⟩, _, _, _⟩ := record_download_path_spec fm a.id ft hwf
  simp only [retrieve_ok hlt hmem]
  exact ⟨_, rfl⟩

theorem mark_wf {fm : FileManager} {fs : FS} {a : Activity}
    {res : FileManager × FS} (hwf : WellFormed fm)
    (h : fm.mark_activity_as_redownloadable fs a = .ok res) : WellFormed res.1 := by
  unfold FileManager.mark_activity_as_redownloadable at h
  split at h
  · cases h
  · next r heq =>
    have hid : r.activity_id = a.id := hwf _ _ heq
    split at h
    · cases h
    · injection h with h'
      rw [← h']
      exact wellFormed_updateA hwf a.id [] (by rw [hid])

theorem check_wf {fm : FileManager} {fs : FS} {a : Activity}
    {res : FileManager × FS} (hwf : WellFormed fm)
    (h : fm.check_for_activity_changes fs a = .ok res) : WellFormed res.1 := by
  unfold FileManager.check_for_activity_changes at h
  split at h
  · injection h with h'; rw [← h']; exact hwf
  · split at h
    · injection h with h'; rw [← h']; exact hwf
    · split at h
      · cases h
      · split at h
        · exact mark_wf hwf h
        · split at h
          · injection h with h'; rw [← h']; exact hwf
          · exact mark_wf hwf h

/-- Ledger states reachable through the public operations: the initial
empty state, observing a pre-existing file, the decision gate, marking
redownloadable, and change detection (each stepping only when the
operation succeeds). -/
inductive Reachable : FileManager → Prop where
  | init : ∀ cfg dir, Reachable (FileManager.init cfg dir)
  | add_file : ∀ {fm fm'} (p : Str), Reachable fm
      → fm.add_preexisting_file p = .ok fm' → Reachable fm'
  | decide_path : ∀ {fm res} (now : DT) (a : Activity) (ft : FileType), Reachable fm
      → fm.record_and_retrieve_download_path now a ft = .ok res → Reachable res.2
  | mark : ∀ {fm res} (fs : FS) (a : Activity), Reachable fm
      → fm.mark_activity_as_redownloadable fs a = .ok res → Reachable res.1
  | check : ∀ {fm res} (fs : FS) (a : Activity), Reachable fm
      → fm.check_for_activity_changes fs a = .ok res → Reachable res.1

theorem reachable_wf {fm : FileManager} (h : Reachable fm) : WellFormed fm := by
  induction h with
  | init cfg dir =>
    intro k r hl
    simp [FileManager.init, lookupA] at hl
  | add_file p _ hok ih => exact add_preexisting_wf ih hok
  | decide_path now a ft _ hok ih => exact decide_wf ih hok
  | mark fs a _ hok ih => exact mark_wf ih hok
  | check fs a _ hok ih => exact check_wf ih hok

/-- Claim C10: the ledger map invariant — every stored record's
`activity_id` equals its key — holds in the initial empty state and in
every state reachable through the public operations (observing a
pre-existing file, the decision gate, marking redownloadable, change
detection). -/
theorem ledger_invariant_theorem :
    (∀ cfg dir, WellFormed (FileManager.init cfg dir))
    ∧ ∀ fm : FileManager, Reachable fm → WellFormed fm := by
  constructor
  · intro cfg dir
    exact reachable_wf (Reachable.init cfg dir)
  · intro fm h
    exact reachable_wf h

/-- Witness for claim C10's theorem at the concrete initial ledger. -/
theorem ledger_invariant_witness :
    Reachable fmEmpty ∧ WellFormed fmEmpty :=
  ⟨Reachable.init cfgEmpty _,
    ledger_invariant_theorem.2 fmEmpty (Reachable.init cfgEmpty _)⟩

/-- Claim C9: for every reachable ledger state and every (activity,
kind, clock) input, the decision gate returns normally — a path or
`None`, never an error; in particular the encode error branches
(activity-id mismatch, kind not materialized) are unreachable from
`decide`. -/
theorem decide_never_raises_theorem (fm : FileManager) (hr : Reachable fm)
    (now : DT) (a : Activity) (ft : FileType) :
    ∃ res : Option Str × FileManager,
      fm.record_and_retrieve_download_path now a ft = .ok res :=
  decide_ok (reachable_wf hr) now a ft

/-- Witness for claim C9's theorem on the initial ledger and the
specification's concrete activity. -/
theorem decide_never_raises_witness :
    Reachable fmEmpty
    ∧ ∃ res : Option Str × FileManager,
        fmEmpty.record_and_retrieve_download_path dtNow morningRun .GPX = .ok res :=
  ⟨Reachable.init cfgEmpty _,
    decide_never_raises_theorem fmEmpty (Reachable.init cfgEmpty _) dtNow morningRun .GPX⟩

theorem fsLookup_fsDelete_self (fs : FS) (p : Str) :
    fsLookup (fsDelete fs p) p = none := by
  induction fs with
  | nil => rfl
  | cons e rest ih =>
    by_cases he : e.1 = p
    · simpa [fsDelete, List.filter_cons, he] using ih
    · have hpe : ¬(p = e.1) := fun x => he x.symm
      simpa [fsDelete, fsLookup, List.filter_cons, he, lookupA, hpe] using ih

theorem fsLookup_fsDelete_ne {fs : FS} {p q : Str} (h : q ≠ p) :
    fsLookup (fsDelete fs p) q = fsLookup fs q := by
  induction fs with
  | nil => rfl
  | cons e rest ih =>
    by_cases he : e.1 = p
    · have hqe : ¬(q = e.1) := fun x => h (x.trans he)
      simpa [fsDelete, fsLookup, List.filter_cons, he, lookupA, hqe, h] using ih
    · by_cases hqe : q = e.1
      · simp [fsDelete, fsLookup, List.filter_cons, he, lookupA, hqe]
      · simpa [fsDelete, fsLookup, List.filter_cons, he, lookupA, hqe] using ih

theorem deleteFilesFor_ok {fm : FileManager} {a : Activity} {r : ActivityFileManager}
    (hwf : WellFormed fm)
    (hl : lookupA fm.downloaded_activities a.id = some r) :
    ∀ (ts : List FileType) (fs : FS), (∀ ft ∈ ts, ft ∈ r.download_file_types) →
    ∃ fs', deleteFilesFor fm a fs ts = .ok fs'
      ∧ (∀ ft ∈ ts, fsLookup fs' (canonicalPath fm a ft) = none)
      ∧ (∀ p, (∀ ft ∈ ts, p ≠ canonicalPath fm a ft) → fsLookup fs' p = fsLookup fs p) := by
  intro ts
  induction ts with
  | nil =>
    intro fs _
    exact ⟨fs, rfl, by simp, fun p _ => rfl⟩
  | cons ft rest ih =>
    intro fs hmem
    have hret := retrieve_ok_of_wf hwf hl (hmem ft (List.mem_cons_self _ _))
    obtain ⟨fs', hok, hdel, hpres⟩ := ih (fsDelete fs (canonicalPath fm a ft))
      (fun ft' m => hmem ft' (List.mem_cons_of_mem _ m))
    refine ⟨fs', ?_, ?_, ?_⟩
    · simp only [deleteFilesFor, hret, hok]
    · intro ft' hm'
      rcases List.mem_cons.mp hm' with rfl | hm2
      · by_cases hpin : ∀ ft'' ∈ rest, canonicalPath fm a ft' ≠ canonicalPath fm a ft''
        · rw [hpres _ hpin]
          exact fsLookup_fsDelete_self fs _
        · push_neg at hpin
          obtain ⟨ft'', hm'', he⟩ := hpin
          rw [he]
          exact hdel ft'' hm''
      · exact hdel ft' hm2
    · intro p hp
      rw [hpres p (fun ft' m => hp ft' (List.mem_cons_of_mem _ m))]
      exact fsLookup_fsDelete_ne (hp ft (List.mem_cons_self _ _))

/-- Ledger after `mark_activity_as_redownloadable` clears an activity:
the same map with that activity's materialized set replaced by the
empty set. -/
def clearedLedger (fm : FileManager) (aid : ActivityId) : FileManager :=
  { fm with downloaded_activities :=
      updateA fm.downloaded_activities aid (ActivityFileManager.mk aid []) }

/-- Success case of `mark_activity_as_redownloadable` under the ledger
invariant: the record's set is cleared, every materialized kind's file
is gone and every other path keeps its contents. -/
theorem mark_ok_spec {fm : FileManager} (fs : FS) {a : Activity} {r : ActivityFileManager}
    (hwf : WellFormed fm) (hl : lookupA fm.downloaded_activities a.id = some r) :
    ∃ fs', fm.mark_activity_as_redownloadable fs a = .ok (clearedLedger fm a.id, fs')
      ∧ (∀ ft ∈ r.download_file_types, fsLookup fs' (canonicalPath fm a ft) = none)
      ∧ (∀ p, (∀ ft ∈ r.download_file_types, p ≠ canonicalPath fm a ft)
          → fsLookup fs' p = fsLookup fs p) := by
  have hid : r.activity_id = a.id := hwf _ _ hl
  obtain ⟨fs', hok, hdel, hpres⟩ :=
    deleteFilesFor_ok hwf hl r.download_file_types fs (fun _ m => m)
  refine ⟨fs', ?_, hdel, hpres⟩
  simp only [FileManager.mark_activity_as_redownloadable, hl, hok]
  rw [hid]
  rfl

/-- Claim C8: `markRedownloadable` raises the not-tracked error exactly
when the activity has no record; when tracked, it deletes the file at
the canonical path of every currently materialized kind (a missing file
is skipped, untouched paths keep their contents) and leaves the
activity's materialized set empty. -/
theorem mark_redownloadable_theorem (fm : FileManager) (fs : FS) (a : Activity)
    (hwf : WellFormed fm) :
    ((∃ e, fm.mark_activity_as_redownloadable fs a = .error e)
      ↔ lookupA fm.downloaded_activities a.id = none)
    ∧ (∀ r, lookupA fm.downloaded_activities a.id = some r →
        ∃ fs', fm.mark_activity_as_redownloadable fs a
            = .ok (clearedLedger fm a.id, fs')
          ∧ lookupA (clearedLedger fm a.id).downloaded_activities a.id
            = some (ActivityFileManager.mk a.id [])
          ∧ (∀ ft ∈ r.download_file_types, fsLookup fs' (canonicalPath fm a ft) = none)
          ∧ (∀ p, (∀ ft ∈ r.download_file_types, p ≠ canonicalPath fm a ft)
              → fsLookup fs' p = fsLookup fs p)) := by
  have hmain : ∀ r, lookupA fm.downloaded_activities a.id = some r →
      ∃ fs', fm.mark_activity_as_redownloadable fs a = .ok (clearedLedger fm a.id, fs')
        ∧ (∀ ft ∈ r.download_file_types, fsLookup fs' (canonicalPath fm a ft) = none)
        ∧ (∀ p, (∀ ft ∈ r.download_file_types, p ≠ canonicalPath fm a ft)
            → fsLookup fs' p = fsLookup fs p) := fun _ hl => mark_ok_spec fs hwf hl
  constructor
  · constructor
    · rintro ⟨e, he⟩
      cases hl : lookupA fm.downloaded_activities a.id with
      | none => rfl
      | some r =>
        obtain ⟨fs', hok, _, _⟩ := hmain r hl
        rw [hok] at he
        cases he
    · intro hl
      refine ⟨"Cannot mark activity as redownloadable: activity not tracked in file manager", ?_⟩
      simp only [FileManager.mark_activity_as_redownloadable, hl]
  · intro r hl
    obtain ⟨fs', hok, hdel, hpres⟩ := hmain r hl
    exact ⟨fs', hok, lookupA_updateA_self _ _ _, hdel, hpres⟩

/-- Ledger tracking the specification's concrete activity with its
metadata kind materialized. -/
def fmTracked : FileManager :=
  ⟨cfgEmpty, "/app/garmin_downloads".toList,
    [(12345678901, ActivityFileManager.mk 12345678901 [.ACTIVITY_JSON])]⟩

/-- One metadata file on disk at the tracked activity's canonical path. -/
def fsOne : FS := [(canonicalPath fmTracked morningRun .ACTIVITY_JSON, "x".toList)]

/-- Witness for claim C8's theorem: marking the tracked concrete
activity redownloadable succeeds, deletes its metadata file and clears
its materialized set. -/
theorem mark_redownloadable_witness :
    WellFormed fmTracked
    ∧ (∃ fs', fmTracked.mark_activity_as_redownloadable fsOne morningRun
        = .ok (clearedLedger fmTracked morningRun.id, fs')
      ∧ lookupA (clearedLedger fmTracked morningRun.id).downloaded_activities
          morningRun.id = some (ActivityFileManager.mk morningRun.id [])
      ∧ (∀ ft ∈ [FileType.ACTIVITY_JSON], fsLookup fs'
          (canonicalPath fmTracked morningRun ft) = none)
      ∧ (∀ p, (∀ ft ∈ [FileType.ACTIVITY_JSON], p
            ≠ canonicalPath fmTracked morningRun ft)
          → fsLookup fs' p = fsLookup fsOne p)) := by
  have hwf : WellFormed fmTracked := by
    intro k r hl
    simp only [fmTracked, lookupA] at hl
    split at hl
    · next hk =>
      injection hl with h2
      rw [← h2, hk]
    · cases hl
  exact ⟨hwf, (mark_redownloadable_theorem fmTracked fsOne morningRun hwf).2
    (ActivityFileManager.mk 12345678901 [.ACTIVITY_JSON]) (by decide)⟩

/-- Claim C5: change detection is a no-op unless the activity has a
record with metadata materialized; when the stored metadata bytes equal
the sorted-key re-serialization of the current raw payload
(`Activity.dump`) nothing changes; when they differ the whole activity
is marked redownloadable — the materialized set becomes empty and the
metadata file is deleted from the file system. -/
theorem change_detection_theorem (fm : FileManager) (fs : FS) (a : Activity)
    (hwf : WellFormed fm) :
    (lookupA fm.downloaded_activities a.id = none
      → fm.check_for_activity_changes fs a = .ok (fm, fs))
    ∧ (∀ r, lookupA fm.downloaded_activities a.id = some r
        → FileType.ACTIVITY_JSON ∉ r.download_file_types
        → fm.check_for_activity_changes fs a = .ok (fm, fs))
    ∧ (∀ r, lookupA fm.downloaded_activities a.id = some r
        → FileType.ACTIVITY_JSON ∈ r.download_file_types
        → fsLookup fs (canonicalPath fm a .ACTIVITY_JSON) = some a.dump
        → fm.check_for_activity_changes fs a = .ok (fm, fs))
    ∧ (∀ r stored, lookupA fm.downloaded_activities a.id = some r
        → FileType.ACTIVITY_JSON ∈ r.download_file_types
        → fsLookup fs (canonicalPath fm a .ACTIVITY_JSON) = some stored
        → stored ≠ a.dump
        → ∃ fs', fm.check_for_activity_changes fs a
            = .ok (clearedLedger fm a.id, fs')
          ∧ lookupA (clearedLedger fm a.id).downloaded_activities a.id
            = some (ActivityFileManager.mk a.id [])
          ∧ fsLookup fs' (canonicalPath fm a .ACTIVITY_JSON) = none) := by
  refine ⟨?_, ?_, ?_, ?_⟩
  · intro hl
    simp only [FileManager.check_for_activity_changes, hl]
  · intro r hl hnot
    simp only [FileManager.check_for_activity_changes, hl]
    rw [if_pos hnot]
  · intro r hl hmem hfs
    simp only [FileManager.check_for_activity_changes, hl,
      retrieve_ok_of_wf hwf hl hmem, hfs]
    rw [if_pos trivial, if_neg (not_not_intro hmem)]
  · intro r stored hl hmem hfs hne
    obtain ⟨fs', hok, hdel, _⟩ := mark_ok_spec fs hwf hl
    refine ⟨fs', ?_, lookupA_updateA_self _ _ _, hdel _ hmem⟩
    simp only [FileManager.check_for_activity_changes, hl,
      retrieve_ok_of_wf hwf hl hmem, hfs]
    rw [if_neg (not_not_intro hmem), if_neg (fun e => hne e.symm)]
    exact hok

/-- First version of a raw payload. -/
def rawV1 : Json := .obj (.cons "distance".toList (.num 1000) .nil)

/-- The same payload with one field mutated. -/
def rawV2 : Json := .obj (.cons "distance".toList (.num 1001) .nil)

/-- The concrete tracked activity after its raw payload changed
upstream. -/
def actV2 : Activity := { morningRun with raw := rawV2 }

/-- File system holding the previously stored serialization of the
original payload at the metadata file's canonical path. -/
def fsStored : FS :=
  [(canonicalPath fmTracked actV2 .ACTIVITY_JSON, jsonDumps rawV1)]

/-- Witness for claim C5's theorem: after mutating one field of the raw
payload, change detection marks the concrete tracked activity
redownloadable, emptying its materialized set and deleting the metadata
file. -/
theorem change_detection_witness :
    jsonDumps rawV1 ≠ actV2.dump
    ∧ (∃ fs', fmTracked.check_for_activity_changes fsStored actV2
        = .ok (clearedLedger fmTracked actV2.id, fs')
      ∧ lookupA (clearedLedger fmTracked actV2.id).downloaded_activities actV2.id
        = some (ActivityFileManager.mk actV2.id [])
      ∧ fsLookup fs' (canonicalPath fmTracked actV2 .ACTIVITY_JSON) = none) := by
  have hwf : WellFormed fmTracked := by
    intro k r hl
    simp only [fmTracked, lookupA] at hl
    split at hl
    · next hk =>
      injection hl with h2
      rw [← h2, hk]
    · cases hl
  refine ⟨by decide, ?_⟩
  exact (change_detection_theorem fmTracked fsStored actV2 hwf).2.2.2
    (ActivityFileManager.mk 12345678901 [.ACTIVITY_JSON]) (jsonDumps rawV1)
    (by decide) (by decide) (by decide) (by decide)

/-- Per-activity update of the page-scoped cursor
`current_run_oldest_downloaded_activity_id` (source lines 173-174 and
187-188): seeded with the first activity when falsy, overwritten by any
activity with a positive download count. -/
def stepCur (cur : Option Int) (p : Activity × Nat) : Option Int :=
  if 0 < p.2 then some p.1.id
  else if optTruthy cur then cur else some p.1.id

/-- Cursor value determined by a processing trace: the last activity in
processing order with a positive download count, or the first processed
activity when no download occurred. -/
def cursorSpec (t : List (Activity × Nat)) : Option Int :=
  match (t.filter (fun p => 0 < p.2)).getLast? with
  | some p => some p.1.id
  | none => t.head?.map (fun p => p.1.id)

/-- The `reached_boundary` flag as a fold over a processing trace
(source lines 176-177 and 189). -/
def batchBoundaryFlag (w : Option Int) : Bool → List (Activity × Nat) → Bool
  | reached, [] => reached
  | reached, (a, d) :: rest =>
    batchBoundaryFlag w
      (if 0 < d then false else if boundaryHit w a then true else reached) rest

/-- Final flag of a batch-processing result, when it succeeded. -/
def pbFlag (r : Except String (LoopSt × List (Activity × Nat) × Bool)) : Option Bool :=
  match r with
  | .ok (_, _, flag) => some flag
  | .error _ => none

/-- Download counts of a batch-processing result, in processing order. -/
def pbDs (r : Except String (LoopSt × List (Activity × Nat) × Bool)) : Option (List Nat) :=
  match r with
  | .ok (_, t, _) => some (t.map Prod.snd)
  | .error _ => none

/-- Activity ids of a batch-processing result, in processing order. -/
def pbIds (r : Except String (LoopSt × List (Activity × Nat) × Bool)) : Option (List Int) :=
  match r with
  | .ok (_, t, _) => some (t.map (fun p => p.1.id))
  | .error _ => none

theorem processBatch_spec (cfg : ExporterConfig) (now : DT)
    (api : ActivityId → FileType → Str) (w : Option Int) :
    ∀ (batch : List Activity) (st : LoopSt) (reached : Bool)
      (st' : LoopSt) (trace : List (Activity × Nat)) (flag : Bool),
      processBatch cfg now api w st reached batch = .ok (st', trace, flag) →
      trace.map Prod.fst = batch
      ∧ st'.cur = trace.foldl stepCur st.cur
      ∧ flag = batchBoundaryFlag w reached trace := by
  intro batch
  induction batch with
  | nil =>
    intro st reached st' trace flag h
    injection h with h'
    injection h' with h1 h2
    injection h2 with h2 h3
    subst h1
    subst h2
    subst h3
    exact ⟨rfl, rfl, rfl⟩
  | cons a rest ih =>
    intro st reached st' trace flag h
    simp only [processBatch] at h
    split at h
    · cases h
    · next fm1fs1 hchk =>
      split at h
      · cases h
      · next dres hdl =>
        split at h
        · cases h
        · next st2 trace2 flag2 hrec =>
          injection h with h'
          injection h' with h1 h2
          injection h2 with h2 h3
          subst h1
          subst h2
          subst h3
          obtain ⟨hmap, hcur, hflag⟩ := ih _ _ _ _ _ hrec
          refine ⟨?_, ?_, ?_⟩
          · simp [hmap]
          · simp only [List.foldl_cons]
            rw [hcur]
            rfl
          · simp only [batchBoundaryFlag]
            rw [hflag]

theorem runLoop_cur (cfg : ExporterConfig) (now : DT)
    (api : ActivityId → FileType → Str) (w : Option Int) (feed : List Activity) :
    ∀ (fuel start : Nat) (st : LoopSt) (res : RunResult),
      runLoopFuel cfg now api w feed fuel start st = .ok res →
      res.st.cur = res.trace.foldl stepCur st.cur := by
  intro fuel
  induction fuel with
  | zero =>
    intro start st res h
    cases h
  | succ f ih =>
    intro start st res h
    simp only [runLoopFuel] at h
    split at h
    · injection h with h'
      rw [← h']
      rfl
    · split at h
      · cases h
      · next st1 btrace reached hpb =>
        split at h
        · injection h with h'
          rw [← h']
          exact (processBatch_spec cfg now api w _ _ _ _ _ _ hpb).2.1
        · split at h
          · cases h
          · next res2 hrec =>
            injection h with h'
            rw [← h']
            show res2.st.cur = (btrace ++ res2.trace).foldl stepCur st.cur
            rw [List.foldl_append,
              ← (processBatch_spec cfg now api w _ _ _ _ _ _ hpb).2.1]
            exact ih _ _ _ hrec

theorem runLoop_stops (cfg : ExporterConfig) (now : DT)
    (api : ActivityId → FileType → Str) (w : Option Int) (feed : List Activity)
    (fuel start : Nat) (st st' : LoopSt) (trace : List (Activity × Nat))
    (hb : ((feed.drop start).take cfg.batch_size).isEmpty = false)
    (hpb : processBatch cfg now api w st false ((feed.drop start).take cfg.batch_size)
      = .ok (st', trace, true))
    (hrk : cfg.always_recheck_all_activities = false) :
    runLoopFuel cfg now api w feed (fuel + 1) start st = .ok ⟨st', [start], trace⟩ := by
  simp only [runLoopFuel, hb, Bool.false_eq_true, if_false, hpb]
  rw [if_pos ⟨trivial, hrk⟩]

theorem boundaryHit_eq {W : Int} (hW : W ≠ 0) (a : Activity) :
    boundaryHit (some W) a = true ↔ a.id = W := by
  simp [boundaryHit, hW]

theorem decompD_nil (w : Option Int) :
    ¬∃ (t1 : List (Activity × Nat)) (p : Activity × Nat) (t2 : List (Activity × Nat)),
      ([] : List (Activity × Nat)) = t1 ++ p :: t2
      ∧ boundaryHit w p.1 = true ∧ p.2 = 0 ∧ ∀ q ∈ t2, q.2 = 0 := by
  rintro ⟨t1, p, t2, he, _⟩
  cases t1 <;> simp at he

theorem decompD_cons (w : Option Int) (x : Activity × Nat) (t : List (Activity × Nat)) :
    (∃ t1 p t2, x :: t = t1 ++ p :: t2 ∧ boundaryHit w p.1 = true ∧ p.2 = 0
      ∧ ∀ q ∈ t2, q.2 = 0)
    ↔ ((boundaryHit w x.1 = true ∧ x.2 = 0 ∧ ∀ q ∈ t, q.2 = 0)
      ∨ ∃ t1 p t2, t = t1 ++ p :: t2 ∧ boundaryHit w p.1 = true ∧ p.2 = 0
        ∧ ∀ q ∈ t2, q.2 = 0) := by
  constructor
  · rintro ⟨t1, p, t2, he, hb, hz, hall⟩
    cases t1 with
    | nil =>
      simp only [List.nil_append] at he
      injection he with h1 h2
      subst h1
      subst h2
      exact .inl ⟨hb, hz, hall⟩
    | cons y t1' =>
      simp only [List.cons_append] at he
      injection he with h1 h2
      subst h2
      exact .inr ⟨t1', p, t2, rfl, hb, hz, hall⟩
  · rintro (⟨hb, hz, hall⟩ | ⟨t1, p, t2, he, hb, hz, hall⟩)
    · exact ⟨[], x, t, rfl, hb, hz, hall⟩
    · exact ⟨x :: t1, p, t2, by rw [he, List.cons_append], hb, hz, hall⟩

theorem batchBoundaryFlag_iff (w : Option Int) :
    ∀ (t : List (Activity × Nat)) (r0 : Bool),
      batchBoundaryFlag w r0 t = true ↔
        (r0 = true ∧ ∀ p ∈ t, p.2 = 0)
        ∨ ∃ t1 p t2, t = t1 ++ p :: t2 ∧ boundaryHit w p.1 = true ∧ p.2 = 0
            ∧ ∀ q ∈ t2, q.2 = 0 := by
  intro t
  induction t with
  | nil =>
    intro r0
    constructor
    · intro h
      exact .inl ⟨h, fun p hp => absurd hp (List.not_mem_nil p)⟩
    · rintro (⟨h, _⟩ | hD)
      · exact h
      · exact absurd hD (decompD_nil w)
  | cons x t ih =>
    intro r0
    rcases x with ⟨a, d⟩
    show batchBoundaryFlag w (if 0 < d then false else if boundaryHit w a then true else r0) t
      = true ↔ _
    rw [ih, decompD_cons]
    have hall : (∀ p ∈ (a, d) :: t, p.2 = 0) ↔ (d = 0 ∧ ∀ p ∈ t, p.2 = 0) := by
      simp
    by_cases hd : 0 < d
    · rw [if_pos hd, hall]
      constructor
      · rintro (⟨hf, _⟩ | hD)
        · exact absurd hf Bool.false_ne_true
        · exact .inr (.inr hD)
      · rintro (⟨_, hz, _⟩ | ⟨_, hz, _⟩ | hD)
        · omega
        · omega
        · exact .inr hD
    · have hz : d = 0 := by omega
      subst hz
      rw [if_neg hd, hall]
      by_cases hh : boundaryHit w a = true
      · rw [if_pos hh]
        constructor
        · rintro (⟨_, hallt⟩ | hD)
          · exact .inr (.inl ⟨hh, rfl, hallt⟩)
          · exact .inr (.inr hD)
        · rintro (⟨hr0, _, hallt⟩ | ⟨_, _, hallt⟩ | hD)
          · exact .inl ⟨rfl, hallt⟩
          · exact .inl ⟨rfl, hallt⟩
          · exact .inr hD
      · rw [if_neg hh]
        constructor
        · rintro (⟨hr0, hallt⟩ | hD)
          · exact .inl ⟨hr0, rfl, hallt⟩
          · exact .inr (.inr hD)
        · rintro (⟨hr0, _, hallt⟩ | ⟨hhit, _, _⟩ | hD)
          · exact .inl ⟨hr0, hallt⟩
          · exact absurd hhit hh
          · exact .inr hD

theorem stepCur_none (p : Activity × Nat) : stepCur none p = some p.1.id := by
  simp [stepCur, optTruthy]

theorem cursorSpec_singleton (p : Activity × Nat) : cursorSpec [p] = some p.1.id := by
  by_cases hd : 0 < p.2
  · simp [cursorSpec, hd]
  · simp [cursorSpec, hd]

theorem foldl_stepCur_spec :
    ∀ (t : List (Activity × Nat)), t ≠ [] → (∀ p ∈ t, 0 < p.1.id) →
      t.foldl stepCur none = cursorSpec t
      ∧ ∃ q, q ∈ t ∧ t.foldl stepCur none = some q.1.id := by
  intro t
  induction t using List.reverseRecOn with
  | nil =>
    intro h
    exact absurd rfl h
  | append_singleton t p ih =>
    intro _ hpos
    by_cases ht : t = []
    · subst ht
      simp only [List.nil_append, List.foldl_cons, List.foldl_nil]
      exact ⟨(stepCur_none p).trans (cursorSpec_singleton p).symm,
        p, List.mem_singleton.mpr rfl, stepCur_none p⟩
    · obtain ⟨hspec, q, hq, hqe⟩ := ih ht (fun p' m => hpos p' (List.mem_append_left _ m))
      have hqpos : 0 < q.1.id := hpos q (List.mem_append_left _ hq)
      have hqz : q.1.id ≠ 0 := ne_of_gt hqpos
      simp only [List.foldl_append, List.foldl_cons, List.foldl_nil]
      rw [hqe]
      have hcs : cursorSpec t = some q.1.id := by rw [← hspec, hqe]
      by_cases hd : 0 < p.2
      · have hstep : stepCur (some q.1.id) p = some p.1.id := by simp [stepCur, hd]
        constructor
        · rw [hstep]
          unfold cursorSpec
          have h1 : List.filter (fun x => decide (0 < x.2)) [p] = [p] := by simp [hd]
          rw [List.filter_append, h1, List.getLast?_concat]
        · exact ⟨p, List.mem_append_right _ (List.mem_singleton.mpr rfl), hstep⟩
      · have hstep : stepCur (some q.1.id) p = some q.1.id := by
          simp [stepCur, hd, optTruthy, hqz]
        constructor
        · rw [hstep, ← hcs]
          have hsuf : cursorSpec (t ++ [p]) = cursorSpec t := by
            unfold cursorSpec
            have h1 : List.filter (fun x => decide (0 < x.2)) [p] = [] := by simp [hd]
            rw [List.filter_append, h1, List.append_nil]
            cases hf : (t.filter (fun x => decide (0 < x.2))).getLast? with
            | some _ => rfl
            | none =>
              cases t with
              | nil => exact absurd rfl ht
              | cons y ys => rfl
          rw [hsuf]
        · exact ⟨q, List.mem_append_left _ hq, hstep⟩

/-- Claim C1 (amended): at the end of every pass that fetches at least
one activity (all of positive id, per the data model), the
watermark is set to the cursor determined by the processing trace: the
id of the last activity in processing order with a new download (the
oldest, for the newest-first feed), or — when no new download occurred
anywhere in the pass — the id of the first activity fetched, not the
prior watermark. -/
theorem watermark_update_theorem (cfg : ExporterConfig) (now : DT)
    (api : ActivityId → FileType → Str) (feed : List Activity) (prevW : Option Int)
    (fm : FileManager) (fs : FS) (newW : Option Int) (res : RunResult)
    (h : download_all_activities_iteration cfg now api feed prevW fm fs = .ok (newW, res))
    (hne : res.trace ≠ [])
    (hpos : ∀ p ∈ res.trace, 0 < p.1.id) :
    newW = cursorSpec res.trace := by
  unfold download_all_activities_iteration at h
  split at h
  · cases h
  · next r hrun =>
    injection h with h'
    injection h' with h1 h2
    subst h2
    subst h1
    obtain ⟨hspec, q, hq, hqe⟩ := foldl_stepCur_spec _ hne hpos
    have hcur : r.st.cur = List.foldl stepCur none r.trace :=
      runLoop_cur cfg now api prevW feed _ _ _ _ hrun
    rw [hcur, hqe, if_pos (by simp [optTruthy, ne_of_gt (hpos q hq)])]
    rw [← hqe]
    exact hspec

/-- Small exporter configuration: batch size 10, change detection off,
full re-scan off. -/
def cfgSmall : ExporterConfig := ⟨10, false, false⟩

/-- Ledger excluding activity id 7 by configuration. -/
def fmExcl7 : FileManager := ⟨⟨[7], [], [], none, none, none⟩, "/d".toList, []⟩

/-- Activity with id 7. -/
def act7 : Activity :=
  ⟨.obj .nil, 7, "a".toList, "t".toList, ⟨2024, 1, 15, 8, 30, 0⟩, true⟩

/-- Remote endpoint returning no track bytes. -/
def apiEmpty : ActivityId → FileType → Str := fun _ _ => []

/-- Claim C1 as stated is false: a pass over one fetched activity with
zero downloads (the activity is id-excluded) moves the watermark from
`some 99` to `some 7` — the id of the first fetched activity — instead
of leaving it unchanged. -/
theorem watermark_update_counterexample :
    download_all_activities_iteration cfgSmall dtNow apiEmpty [act7] (some 99) fmExcl7 []
      = .ok (some 7, ⟨⟨some 7, fmExcl7, [], 0, 5⟩, [0, 10], [(act7, 0)]⟩)
    ∧ (∀ p ∈ [(act7, 0)], p.2 = 0)
    ∧ some (7 : Int) ≠ some (99 : Int) := by
  exact ⟨by decide, by decide, by decide⟩

/-- Witness for claim C1's amended theorem at the concrete no-download
pass. -/
theorem watermark_update_witness :
    ([(act7, 0)] ≠ ([] : List (Activity × Nat)))
    ∧ some (7 : Int) = cursorSpec [(act7, 0)] := by
  refine ⟨by decide, ?_⟩
  exact watermark_update_theorem cfgSmall dtNow apiEmpty [act7] (some 99) fmExcl7 []
    (some 7) ⟨⟨some 7, fmExcl7, [], 0, 5⟩, [0, 10], [(act7, 0)]⟩
    (by decide) (by decide) (by decide)

/-- Claim C3: with a prior watermark `W` (a positive activity id) and
the force-full-rescan flag off, a fetched page containing an activity
with id `W` whose processing produced zero new downloads ends the pass:
the loop returns right after this page, fetching no further page (its
offset list is exactly `[start]`). -/
theorem boundary_stop_theorem (cfg : ExporterConfig) (now : DT)
    (api : ActivityId → FileType → Str) (W : Int) (hW : 0 < W)
    (feed : List Activity) (fuel start : Nat) (st st' : LoopSt)
    (trace : List (Activity × Nat)) (flag : Bool)
    (hrk : cfg.always_recheck_all_activities = false)
    (hb : (feed.drop start).take cfg.batch_size ≠ [])
    (hpb : processBatch cfg now api (some W) st false
      ((feed.drop start).take cfg.batch_size) = .ok (st', trace, flag))
    (hzero : ∀ p ∈ trace, p.2 = 0)
    (hhit : ∃ a ∈ (feed.drop start).take cfg.batch_size, a.id = W) :
    runLoopFuel cfg now api (some W) feed (fuel + 1) start st = .ok ⟨st', [start], trace⟩ := by
  obtain ⟨hmap, _, hflag⟩ := processBatch_spec cfg now api (some W) _ _ _ _ _ _ hpb
  obtain ⟨a, ha, haid⟩ := hhit
  have ha' : a ∈ trace.map Prod.fst := by rw [hmap]; exact ha
  obtain ⟨p, hp, hpe⟩ := List.mem_map.mp ha'
  have hWne : W ≠ 0 := ne_of_gt hW
  have hflag_true : flag = true := by
    rw [hflag, batchBoundaryFlag_iff]
    right
    obtain ⟨t1, t2, ht⟩ := List.append_of_mem hp
    exact ⟨t1, p, t2, ht, (boundaryHit_eq hWne p.1).mpr (by rw [hpe]; exact haid),
      hzero p hp,
      fun q hq => hzero q (by rw [ht]; exact List.mem_append_right _ (List.mem_cons_of_mem _ hq))⟩
  rw [hflag_true] at hpb
  have hbe : ((feed.drop start).take cfg.batch_size).isEmpty = false := by
    cases hcase : (feed.drop start).take cfg.batch_size with
    | nil => exact absurd hcase hb
    | cons y ys => rfl
  exact runLoop_stops cfg now api (some W) feed fuel start st st' trace hbe hpb hrk

/-- Ledger excluding activity id 5 by configuration. -/
def fmExcl5 : FileManager := ⟨⟨[5], [], [], none, none, none⟩, "/d".toList, []⟩

/-- Activity with id 5. -/
def act5 : Activity :=
  ⟨.obj .nil, 5, "a".toList, "t".toList, ⟨2024, 1, 15, 8, 30, 0⟩, true⟩

/-- Witness for claim C3's theorem: the pass over a one-page feed whose
only activity is the watermark boundary (and excluded, so nothing
downloads) stops after fetching exactly the one page at offset 0. -/
theorem boundary_stop_witness :
    (0 < (5 : Int))
    ∧ cfgSmall.always_recheck_all_activities = false
    ∧ runLoopFuel cfgSmall dtNow apiEmpty (some 5) [act5] 1 0 ⟨none, fmExcl5, [], 0, 0⟩
        = .ok ⟨⟨some 5, fmExcl5, [], 0, 5⟩, [0], [(act5, 0)]⟩ := by
  refine ⟨by decide, rfl, ?_⟩
  exact boundary_stop_theorem cfgSmall dtNow apiEmpty 5 (by decide) [act5] 0 0
    ⟨none, fmExcl5, [], 0, 0⟩ ⟨some 5, fmExcl5, [], 0, 5⟩ [(act5, 0)] true rfl
    (by decide) (by decide) (by decide) ⟨act5, by decide, by decide⟩

/-- Claim C4 (amended): with a nonzero prior watermark `W`, the
`reached_boundary` flag at the end of a page is set exactly when some
processed activity equals `W` with no new download for it *or for any
activity processed after it in the same page*; a later activity's
download does clear the boundary condition. -/
theorem boundary_clearing_theorem (cfg : ExporterConfig) (now : DT)
    (api : ActivityId → FileType → Str) (W : Int) (hW : W ≠ 0)
    (st st' : LoopSt) (batch : List Activity) (trace : List (Activity × Nat))
    (flag : Bool)
    (h : processBatch cfg now api (some W) st false batch = .ok (st', trace, flag)) :
    flag = true ↔ ∃ t1 p t2, trace = t1 ++ p :: t2 ∧ p.1.id = W ∧ p.2 = 0
      ∧ ∀ q ∈ t2, q.2 = 0 := by
  obtain ⟨_, _, hflag⟩ := processBatch_spec cfg now api (some W) _ _ _ _ _ _ h
  rw [hflag, batchBoundaryFlag_iff]
  constructor
  · rintro (⟨hf, _⟩ | ⟨t1, p, t2, ht, hbd, hz, hall⟩)
    · exact absurd hf Bool.false_ne_true
    · exact ⟨t1, p, t2, ht, (boundaryHit_eq hW p.1).mp hbd, hz, hall⟩
  · rintro ⟨t1, p, t2, ht, hid, hz, hall⟩
    exact .inr ⟨t1, p, t2, ht, (boundaryHit_eq hW p.1).mpr hid, hz, hall⟩

/-- Ledger tracking the boundary activity (id 5) with every kind
already materialized. -/
def fmC4 : FileManager :=
  ⟨⟨[], [], [], none, none, none⟩, "/d".toList,
    [(5, ActivityFileManager.mk 5 [.ACTIVITY_JSON, .GPX, .TCX, .KML, .CSV])]⟩

/-- The boundary activity: id 5, fully materialized in `fmC4`. -/
def actA : Activity :=
  ⟨.obj .nil, 5, "a".toList, "t".toList, ⟨2024, 1, 15, 8, 30, 0⟩, true⟩

/-- A fresh activity processed after the boundary in the same page. -/
def actB : Activity :=
  ⟨.obj .nil, 3, "b".toList, "t".toList, ⟨2024, 1, 14, 7, 0, 0⟩, true⟩

/-- Remote endpoint returning one byte of track data. -/
def apiG : ActivityId → FileType → Str := fun _ _ => "g".toList

/-- Claim C4 as stated is false: with watermark 5, the page
`[actA (id 5, nothing new), actB (id 3, five new downloads)]` ends with
`reached_boundary = false` — the later activity's downloads cleared the
boundary even though the boundary activity itself had none. -/
theorem boundary_clearing_counterexample :
    pbIds (processBatch cfgSmall dtNow apiG (some 5) ⟨none, fmC4, [], 0, 0⟩ false
        [actA, actB]) = some [5, 3]
    ∧ pbDs (processBatch cfgSmall dtNow apiG (some 5) ⟨none, fmC4, [], 0, 0⟩ false
        [actA, actB]) = some [0, 5]
    ∧ pbFlag (processBatch cfgSmall dtNow apiG (some 5) ⟨none, fmC4, [], 0, 0⟩ false
        [actA, actB]) = some false := by
  exact ⟨by decide, by decide, by decide⟩

/-- Witness for claim C4's amended theorem at the one-activity boundary
page. -/
theorem boundary_clearing_witness :
    ((5 : Int) ≠ 0)
    ∧ (true = true ↔ ∃ t1 p t2, [(act5, 0)] = t1 ++ p :: t2 ∧ p.1.id = 5 ∧ p.2 = 0
        ∧ ∀ q ∈ t2, q.2 = 0) := by
  refine ⟨by decide, ?_⟩
  exact boundary_clearing_theorem cfgSmall dtNow apiEmpty 5 (by decide)
    ⟨none, fmExcl5, [], 0, 0⟩ ⟨some 5, fmExcl5, [], 0, 5⟩ [act5] [(act5, 0)] true
    (by decide)
